import Mathlib

/-!
Shallow embedding of the `Relay` log-relay component of the `ratatouille`
repository (`src/relay.ts`, with the fetch-based variant `src/relay.worker.ts`
where noted).  JavaScript strings are modelled as Lean `String`s (one code
unit per `Char`), JS numbers holding byte counts as `Int`, line counts as
`Nat`, and the sampling rate together with the `Math.random()` draw as `ℚ`.
Wall-clock timing (`lastFlushMs`) and the socket/agent handles are abstracted:
they carry no data any specified behaviour depends on.  Network outcomes are
passed to the flush functions as explicit parameters.
-/

namespace Ratatouille

/-- JS string length, as an integer byte/char count. -/
def slen (s : String) : Int := (s.length : Int)

/-- Sum of the lengths of a list of lines. -/
def qSum (q : List String) : Int := (q.map slen).sum

/-- `dropPolicy` configuration values. -/
inductive DropPolicy where
  | drop_oldest
  | drop_newest
  deriving DecidableEq, Repr

/-- A JavaScript value, as far as the default encoder inspects payloads:
plain objects (`Object.getPrototypeOf(x) === Object.prototype`) are `obj`,
arrays are `arr`, and the remaining primitives cover the rest.  `other`
stands for any non-plain object (class instance, function, ...). -/
inductive JVal where
  | null
  | bool (b : Bool)
  | num (n : Int)
  | str (s : String)
  | arr (xs : List JVal)
  | obj (fields : List (String × JVal))
  | other

/-- Resolved configuration, as built by the `Relay` constructor
(all defaults applied). -/
structure Config where
  endpoint : String
  batchMs : Int
  batchBytes : Int
  maxQueueBytes : Int
  maxQueue : Nat
  dropPolicy : DropPolicy
  headers : List (String × String)
  keepAlive : Bool
  sampleRate : ℚ
  encode : Option (JVal → Option String)
  source : List (String × JVal)
  defaultTopic : String

/-- Mutable per-instance state of a `Relay`: the queue, the tracked byte
counter, the telemetry counters and the `closed`/`flushing` flags. -/
structure RelayState where
  q : List String
  queuedBytes : Int
  dropped : Nat
  droppedBytes : Int
  sentBatches : Nat
  sentBytes : Int
  failedFlushes : Nat
  lastError : Option String
  closed : Bool
  flushing : Bool
  deriving DecidableEq, Repr

/-- Freshly constructed instance state. -/
def initState : RelayState :=
  { q := [], queuedBytes := 0, dropped := 0, droppedBytes := 0,
    sentBatches := 0, sentBytes := 0, failedFlushes := 0,
    lastError := none, closed := false, flushing := false }

/-- Output of the drop-oldest eviction loop inside `ensureCapacity`. -/
structure EvOut where
  q : List String
  queuedBytes : Int
  dropped : Nat
  droppedBytes : Int
  deriving DecidableEq, Repr

/-- The `while (this.q.length && this.queuedBytes + bytes > maxQueueBytes)`
eviction loop of `ensureCapacity` (relay.ts lines 184-190).  A shifted empty
string is falsy in JS, so `if (!old) break` leaves the loop without touching
the counters. -/
def evictBytesLoop (maxQueueBytes bytes : Int) :
    List String → Int → Nat → Int → EvOut
  | [], qb, d, db => ⟨[], qb, d, db⟩
  | old :: rest, qb, d, db =>
    if qb + bytes > maxQueueBytes then
      if old = "" then ⟨rest, qb, d, db⟩
      else evictBytesLoop maxQueueBytes bytes rest
        (qb - slen old) (d + 1) (db + slen old)
    else ⟨old :: rest, qb, d, db⟩

/-- The primary guard of `ensureCapacity` (relay.ts lines 180-192):
the byte ceiling, with drop-oldest eviction. -/
def byteGuard (cfg : Config) (bytes : Int) (s : RelayState) :
    Bool × RelayState :=
  if s.queuedBytes + bytes > cfg.maxQueueBytes then
    if cfg.dropPolicy = .drop_newest then (false, s)
    else
      let r := evictBytesLoop cfg.maxQueueBytes bytes s.q
        s.queuedBytes s.dropped s.droppedBytes
      let s1 : RelayState :=
        { s with
          q := r.q
          queuedBytes := r.queuedBytes
          dropped := r.dropped
          droppedBytes := r.droppedBytes }
      if s1.queuedBytes + bytes > cfg.maxQueueBytes then (false, s1)
      else (true, s1)
  else (true, s)

/-- The secondary guard of `ensureCapacity` (relay.ts lines 194-205):
the line-count ceiling.  `const removed = this.q.shift(); if (removed)`:
an empty string is falsy, so it would be removed without counting. -/
def countGuard (cfg : Config) (s : RelayState) : Bool × RelayState :=
  if s.q.length + 1 > cfg.maxQueue then
    if cfg.dropPolicy = .drop_newest then (false, s)
    else
      let s2 : RelayState :=
        match s.q with
        | [] => s
        | removed :: rest =>
          if removed = "" then { s with q := rest }
          else
            { s with
              q := rest
              queuedBytes := s.queuedBytes - slen removed
              dropped := s.dropped + 1
              droppedBytes := s.droppedBytes + slen removed }
      if s2.q.length + 1 > cfg.maxQueue then (false, s2) else (true, s2)
  else (true, s)

/-- `ensureCapacity(bytes)` (relay.ts lines 179-208).  Returns the boolean
result together with the (possibly mutated) state. -/
def ensureCapacity (cfg : Config) (bytes : Int) (s : RelayState) :
    Bool × RelayState :=
  match byteGuard cfg bytes s with
  | (false, s1) => (false, s1)
  | (true, s1) => countGuard cfg s1

/-- NDJSON framing: append a trailing newline when missing
(`data.endsWith("\n")` is the suffix test on the characters). -/
def withNL (line : String) : String :=
  if "\n".data.isSuffixOf line.data then line else line ++ "\n"

/-- Shared tail of `sendLine`/`sendChunk`/`send` after the payload has been
turned into a framed line (oversize check, capacity check, push). -/
def enqueueFramed (cfg : Config) (data : String) (s : RelayState) :
    RelayState :=
  if slen data > cfg.batchBytes then
    { s with
      dropped := s.dropped + 1
      droppedBytes := s.droppedBytes + slen data }
  else
    match ensureCapacity cfg (slen data) s with
    | (true, s1) =>
      { s1 with
        q := s1.q ++ [data]
        queuedBytes := s1.queuedBytes + slen data }
    | (false, s1) =>
      { s1 with
        dropped := s1.dropped + 1
        droppedBytes := s1.droppedBytes + slen data }

/-- `sendLine(line)` (relay.ts lines 259-280). -/
def sendLine (cfg : Config) (s : RelayState) (line : String) : RelayState :=
  if s.closed then s else enqueueFramed cfg (withNL line) s

/-- `sendChunk(chunk)` (relay.ts lines 286-306): identical bounds handling,
the chunk is treated as already-framed bytes. -/
def sendChunk (cfg : Config) (s : RelayState) (chunk : String) : RelayState :=
  if s.closed then s else enqueueFramed cfg (withNL chunk) s

/-- JS property lookup on a plain object (first matching key). -/
def objGet : List (String × JVal) → String → Option JVal
  | [], _ => none
  | (k1, v1) :: o, k => if k1 = k then some v1 else objGet o k

/-- JS property assignment: overwrite in place when the key exists
(key order preserved), otherwise append. -/
def objSet (o : List (String × JVal)) (k : String) (v : JVal) :
    List (String × JVal) :=
  if (objGet o k).isSome then
    o.map (fun kv => if kv.1 = k then (kv.1, v) else kv)
  else o ++ [(k, v)]

/-- JS object spread `{ ...a, ...b }`: keys of `a` in order with `b`'s values
winning on conflict, then the keys of `b` not present in `a`. -/
def objMerge (a b : List (String × JVal)) : List (String × JVal) :=
  a.map (fun kv =>
    match objGet b kv.1 with
    | some v => (kv.1, v)
    | none => kv)
  ++ b.filter (fun kv => (objGet a kv.1).isNone)

/-- `typeof payload.topic === "string"` on a plain-object payload. -/
def topicIsString (fields : List (String × JVal)) : Bool :=
  match objGet fields "topic" with
  | some (.str _) => true
  | _ => false

/-- `out.ts == null`: the `ts` property is absent or null. -/
def tsIsNullish (fields : List (String × JVal)) : Bool :=
  match objGet fields "ts" with
  | none => true
  | some .null => true
  | some _ => false

/-- `this.config.source && Object.keys(this.config.source).length
? this.config.source : undefined`. -/
def srcConfig (cfg : Config) : Option (List (String × JVal)) :=
  if cfg.source.length ≠ 0 then some cfg.source else none

/-- `out.src = out.src && isPlainObject(out.src) ? { ...src, ...out.src }
: src` (relay.ts line 114).  A plain object is always truthy; every other
value of `out.src` (absent, falsy, array, non-plain object) is replaced by
the configured source wholesale. -/
def mergeSrcField (src : List (String × JVal))
    (out : List (String × JVal)) : List (String × JVal) :=
  match objGet out "src" with
  | some (.obj osrc) => objSet out "src" (.obj (objMerge src osrc))
  | _ => objSet out "src" (.obj src)

/-- The minimal envelope of the default encoder's fallback branch
(relay.ts lines 119-125): `{ts: now, topic: defaultTopic || "raw",
args: [payload]}` plus `src` when the source identity is non-empty. -/
def wrapEnvelope (cfg : Config) (now : Int) (payload : JVal)
    (src : Option (List (String × JVal))) : JVal :=
  let base : List (String × JVal) :=
    [("ts", .num now),
     ("topic", .str (if cfg.defaultTopic = "" then "raw" else cfg.defaultTopic)),
     ("args", .arr [payload])]
  match src with
  | some s => .obj (base ++ [("src", .obj s)])
  | none => .obj base

/-- `encodeDefault(payload)` (relay.ts lines 103-126), at the level of the
object it builds; serialization to a string is `jsonStringify` below. -/
def encodeDefaultObj (cfg : Config) (now : Int) (payload : JVal) : JVal :=
  let src := srcConfig cfg
  match payload with
  | .obj fields =>
    if topicIsString fields then
      let out := fields
      let out := if tsIsNullish out then objSet out "ts" (.num now) else out
      let out :=
        match src with
        | some s => mergeSrcField s out
        | none => out
      .obj out
    else wrapEnvelope cfg now payload src
  | _ => wrapEnvelope cfg now payload src

/-- Minimal JSON escaping for string values. -/
def jsonEscapeChar (c : Char) : String :=
  if c = '"' then "\\\""
  else if c = '\\' then "\\\\"
  else if c = '\n' then "\\n"
  else String.singleton c

/-- Comma-separated join. -/
def joinComma (xs : List String) : String :=
  match xs with
  | [] => ""
  | x :: rest => rest.foldl (fun acc y => acc ++ "," ++ y) x

mutual

/-- `JSON.stringify`, restricted to the values `JVal` models. -/
def jsonStringify : JVal → String
  | .null => "null"
  | .bool b => if b then "true" else "false"
  | .num n => toString n
  | .str s => "\"" ++ String.join (s.data.map jsonEscapeChar) ++ "\""
  | .arr xs => "[" ++ joinComma (jsonStringifyList xs) ++ "]"
  | .obj fields => "\x7b" ++ joinComma (jsonStringifyFields fields) ++ "\x7d"
  | .other => "null"

def jsonStringifyList : List JVal → List String
  | [] => []
  | x :: rest => jsonStringify x :: jsonStringifyList rest

def jsonStringifyFields : List (String × JVal) → List String
  | [] => []
  | (k, v) :: rest =>
    ("\"" ++ String.join (k.data.map jsonEscapeChar) ++ "\":" ++ jsonStringify v)
      :: jsonStringifyFields rest

end

/-- `encodeDefault(payload)` as the string that gets framed and enqueued. -/
def encodeDefault (cfg : Config) (now : Int) (payload : JVal) : String :=
  jsonStringify (encodeDefaultObj cfg now payload)

/-- `send(payload)` (relay.ts lines 217-256).  `now` is `Date.now()`, `rand`
the `Math.random()` draw; a configured encoder returning `none` models an
encoder that throws. -/
def send (cfg : Config) (now : Int) (rand : ℚ) (payload : JVal)
    (s : RelayState) : RelayState :=
  if s.closed then s
  else if cfg.sampleRate < 1 ∧ cfg.sampleRate ≤ rand then
    { s with dropped := s.dropped + 1 }
  else
    let lineRes : Option String :=
      match cfg.encode with
      | some enc => enc payload
      | none => some (encodeDefault cfg now payload)
    match lineRes with
    | none => { s with dropped := s.dropped + 1 }
    | some line => enqueueFramed cfg (withNL line) s

/-- The drain loop of `drainBatch` (relay.ts lines 311-317):
`while (this.q.length && bytes + this.q[0].length <= batchBytes)`.
Returns the drained lines, the remaining queue and the final byte total. -/
def drainLoop (batchBytes : Int) : Int → List String →
    List String × List String × Int
  | bytes, [] => ([], [], bytes)
  | bytes, line :: rest =>
    if bytes + slen line ≤ batchBytes then
      match drainLoop batchBytes (bytes + slen line) rest with
      | (batch, remq, total) => (line :: batch, remq, total)
    else ([], line :: rest, bytes)

/-- `drainBatch()` (relay.ts lines 309-321). -/
def drainBatch (cfg : Config) (s : RelayState) : Option String × RelayState :=
  if s.q.length = 0 then (none, s)
  else
    match drainLoop cfg.batchBytes 0 s.q with
    | (batch, remq, bytes) =>
      let s1 : RelayState :=
        { s with q := remq, queuedBytes := s.queuedBytes - bytes }
      if batch.length = 0 then (none, s1)
      else (some (String.join batch), s1)

/-- JS `String.prototype.startsWith`. -/
def strStartsWith (s p : String) : Bool := p.data.isPrefixOf s.data

/-- What the Node transport reports back for one HTTP(S) flush: either a
response (of any status — the handler resolves on `end` without inspecting
`statusCode`) or a request `error` event (whose handler also resolves). -/
inductive NodeHttpEvent where
  | response (code : Nat)
  | reqError
  deriving DecidableEq, Repr

/-- `flushNow()` of the Node relay (relay.ts lines 329-406).  `socketPresent`
models `this.socket` being set; `ev` the HTTP exchange outcome.  Note that in
the HTTP(S) branch the promise resolves both on response end (any status) and
on request error, after which the success counters are updated
unconditionally (relay.ts lines 374-391). -/
def flushNowNode (cfg : Config) (socketPresent : Bool) (ev : NodeHttpEvent)
    (s : RelayState) : RelayState :=
  if s.closed then s
  else if s.flushing then s
  else
    match drainBatch cfg s with
    | (none, s1) => s1
    | (some data, s1) =>
      if strStartsWith cfg.endpoint "tcp://" ∧ socketPresent then
        { s1 with
          sentBatches := s1.sentBatches + 1
          sentBytes := s1.sentBytes + slen data
          lastError := none
          flushing := false }
      else if strStartsWith cfg.endpoint "http://"
          ∨ strStartsWith cfg.endpoint "https://" then
        -- `ev` is deliberately unused: the source never reads the status.
        match ev with
        | _ =>
          { s1 with
            sentBatches := s1.sentBatches + 1
            sentBytes := s1.sentBytes + slen data
            lastError := none
            flushing := false }
      else
        { s1 with
          failedFlushes := s1.failedFlushes + 1
          lastError := some ("unsupported endpoint: " ++ cfg.endpoint)
          flushing := false }

/-- Outcome of the worker relay's `fetch`: resolved with `res.ok`, resolved
with a non-ok status, or rejected (`.catch(() => undefined)`). -/
inductive FetchOutcome where
  | ok (code : Nat)
  | notOk (code : Nat)
  | failed
  deriving DecidableEq, Repr

/-- `flushNow()` of the worker relay (relay.worker.ts lines 248-302), with
the drain loop inlined as in the source.  `fetch` is assumed available. -/
def flushNowWorker (cfg : Config) (res : FetchOutcome) (s : RelayState) :
    RelayState :=
  if s.closed then s
  else if s.flushing then s
  else if s.q.length = 0 then s
  else
    match drainLoop cfg.batchBytes 0 s.q with
    | (batch, remq, bytes) =>
      let s1 : RelayState :=
        { s with q := remq, queuedBytes := s.queuedBytes - bytes }
      if batch.length = 0 then s1
      else
        let data := String.join batch
        match res with
        | .ok _ =>
          { s1 with
            sentBatches := s1.sentBatches + 1
            sentBytes := s1.sentBytes + slen data
            lastError := none
            flushing := false }
        | .notOk code =>
          { s1 with
            failedFlushes := s1.failedFlushes + 1
            lastError := some ("triager " ++ toString code)
            flushing := false }
        | .failed =>
          { s1 with
            failedFlushes := s1.failedFlushes + 1
            lastError := some "fetch failed"
            flushing := false }

/-- Result of a successful `connect()`: which transport handle was created
and the interval of the flush timer that was started. -/
structure ConnectOk where
  usesSocket : Bool
  timerMs : Int
  deriving DecidableEq, Repr

/-- JS `String.prototype.split` with a one-character separator: every
occurrence of the separator starts a new (possibly empty) piece; the result
is never empty. -/
def splitChar (sep : Char) : List Char → List (List Char)
  | [] => [[]]
  | c :: rest =>
    match splitChar sep rest with
    | [] => [[c]]
    | h :: t => if c = sep then [] :: h :: t else (c :: h) :: t

/-- The whitespace `parseInt` skips before the number. -/
def isJsSpace (c : Char) : Bool :=
  c == ' ' || c == '\t' || c == '\n' || c == '\r' || c == '\x0b' || c == '\x0c'

/-- Decimal value of a digit string. -/
def digitsVal (ds : List Char) : Nat :=
  ds.foldl (fun a c => a * 10 + (c.toNat - 48)) 0

/-- JS `parseInt(s, 10)`: skip whitespace and an optional sign, then read
the longest leading run of decimal digits; `NaN` (here `none`) when that
run is empty.  A missing argument (`undefined`, here `none`) coerces to the
string `"undefined"` and therefore also gives `NaN`. -/
def jsParseInt10 : Option (List Char) → Option Int
  | none => none
  | some cs0 =>
    match cs0.dropWhile isJsSpace with
    | '-' :: rest =>
      if rest.takeWhile Char.isDigit = [] then none
      else some (-(digitsVal (rest.takeWhile Char.isDigit) : Int))
    | '+' :: rest =>
      if rest.takeWhile Char.isDigit = [] then none
      else some ((digitsVal (rest.takeWhile Char.isDigit) : Int))
    | cs =>
      if cs.takeWhile Char.isDigit = [] then none
      else some ((digitsVal (cs.takeWhile Char.isDigit) : Int))

/-- Node's port validation inside `net.createConnection` (`isLegalPort`):
the `port` option must be an integer in `0..65535`, otherwise the call
throws `ERR_SOCKET_BAD_PORT` synchronously; `NaN` always fails it. -/
def isLegalPort : Option Int → Bool
  | none => false
  | some v => decide (0 ≤ v) && decide (v ≤ 65535)

/-- The port string `connect()` extracts from a `tcp://` endpoint:
`const [, , hostPort] = endpoint.split("/")` followed by
`const [host, portStr] = hostPort.split(":")`; `none` when there is no `:`
(array destructuring yields `undefined`). -/
def tcpPortStr (endpoint : String) : Option (List Char) :=
  (splitChar ':' ((splitChar '/' endpoint.data).getD 2 []))[1]?

/-- `connect()` (relay.ts lines 155-176): select the transport by endpoint
scheme, throwing on an unsupported one.  For `tcp://` endpoints
`net.createConnection({ host, port: parseInt(portStr, 10) })` validates the
port synchronously and throws `ERR_SOCKET_BAD_PORT` when it is not an
integer in `0..65535` (DNS and connection failures, by contrast, surface
asynchronously on the `"error"` event, which is swallowed).  On every
non-throwing path the periodic flush timer is then started at `batchMs`;
the socket/agent handles themselves are abstract. -/
def connect (cfg : Config) : Except String ConnectOk :=
  if strStartsWith cfg.endpoint "tcp://" then
    if isLegalPort (jsParseInt10 (tcpPortStr cfg.endpoint)) then
      .ok ⟨true, cfg.batchMs⟩
    else
      .error "ERR_SOCKET_BAD_PORT"
  else if strStartsWith cfg.endpoint "http://"
      ∨ strStartsWith cfg.endpoint "https://" then
    .ok ⟨false, cfg.batchMs⟩
  else
    .error ("Unsupported endpoint protocol: " ++ cfg.endpoint)

/-- One producer/scheduler operation on the queue, for stating invariants
over arbitrary operation sequences. -/
inductive Op where
  | send (payload : JVal) (now : Int) (rand : ℚ)
  | sendLine (line : String)
  | sendChunk (chunk : String)
  | drain
  | flush (socketPresent : Bool) (ev : NodeHttpEvent)

/-- Apply one operation. -/
def applyOp (cfg : Config) (s : RelayState) : Op → RelayState
  | .send p now r => send cfg now r p s
  | .sendLine l => sendLine cfg s l
  | .sendChunk c => sendChunk cfg s c
  | .drain => (drainBatch cfg s).2
  | .flush sock ev => flushNowNode cfg sock ev s

/-- Run a finite sequence of operations from a starting state. -/
def run (cfg : Config) (s : RelayState) (ops : List Op) : RelayState :=
  ops.foldl (applyOp cfg) s

/-- The fields `ensureCapacity` never touches agree between two states. -/
def MiscEq (s t : RelayState) : Prop :=
  t.sentBatches = s.sentBatches ∧ t.sentBytes = s.sentBytes ∧
  t.failedFlushes = s.failedFlushes ∧ t.lastError = s.lastError ∧
  t.closed = s.closed ∧ t.flushing = s.flushing

theorem slen_nonneg (s : String) : 0 ≤ slen s := Int.ofNat_nonneg _

@[simp] theorem slen_empty : slen "" = 0 := rfl

@[simp] theorem qSum_nil : qSum [] = 0 := rfl

@[simp] theorem qSum_cons (l : String) (q : List String) :
    qSum (l :: q) = slen l + qSum q := by
  simp [qSum]

@[simp] theorem qSum_append (a b : List String) :
    qSum (a ++ b) = qSum a + qSum b := by
  simp [qSum]

theorem qSum_nonneg (q : List String) : 0 ≤ qSum q := by
  induction q with
  | nil => simp
  | cons l q ih => simpa using add_nonneg (slen_nonneg l) ih

theorem qSum_take_drop (q : List String) (k : Nat) :
    qSum (q.take k) + qSum (q.drop k) = qSum q := by
  rw [← qSum_append, List.take_append_drop]

theorem qSum_drop_le (q : List String) (k : Nat) : qSum (q.drop k) ≤ qSum q := by
  have h1 := qSum_take_drop q k
  have h2 := qSum_nonneg (q.take k)
  linarith

theorem qSum_take_nonneg (q : List String) (k : Nat) : 0 ≤ qSum (q.take k) :=
  qSum_nonneg _

/-- The drop-oldest eviction loop turns the queue into a suffix of itself
and keeps the tracked byte count equal to the sum of the remaining lines. -/
theorem evictBytesLoop_suffix (B b : Int) (q : List String) :
    ∀ (d : Nat) (db : Int),
    ∃ k ≤ q.length,
      (evictBytesLoop B b q (qSum q) d db).q = q.drop k ∧
      (evictBytesLoop B b q (qSum q) d db).queuedBytes = qSum (q.drop k) := by
  induction q with
  | nil =>
    intro d db
    exact ⟨0, by simp, rfl, by simp [evictBytesLoop]⟩
  | cons old rest ih =>
    intro d db
    by_cases hov : qSum (old :: rest) + b > B
    · by_cases hemp : old = ""
      · have hstep : evictBytesLoop B b (old :: rest) (qSum (old :: rest)) d db
            = ⟨rest, qSum (old :: rest), d, db⟩ := by
          simp only [evictBytesLoop, if_pos hov, if_pos hemp]
        refine ⟨1, by simp, ?_, ?_⟩
        · rw [hstep]
          simp
        · rw [hstep]
          subst hemp
          simp
      · have harith : qSum (old :: rest) - slen old = qSum rest := by
          rw [qSum_cons]; ring
        have hstep : evictBytesLoop B b (old :: rest) (qSum (old :: rest)) d db
            = evictBytesLoop B b rest (qSum rest) (d + 1) (db + slen old) := by
          simp only [evictBytesLoop, if_pos hov, if_neg hemp, harith]
        obtain ⟨k, hk, hq, hqb⟩ := ih (d + 1) (db + slen old)
        refine ⟨k + 1, Nat.succ_le_succ hk, ?_, ?_⟩
        · rw [hstep, List.drop_succ_cons]
          exact hq
        · rw [hstep, List.drop_succ_cons]
          exact hqb
    · have hstep : evictBytesLoop B b (old :: rest) (qSum (old :: rest)) d db
          = ⟨old :: rest, qSum (old :: rest), d, db⟩ := by
        simp only [evictBytesLoop, if_neg hov]
      exact ⟨0, Nat.zero_le _, by rw [hstep]; simp, by rw [hstep]; simp⟩

/-- Full characterization of the eviction loop when no queued line is the
empty string: it drops exactly the shortest prefix whose removal makes the
new line fit (or the whole queue), counting every evicted line. -/
theorem evictBytesLoop_spec (B b : Int) (q : List String) :
    ∀ (d : Nat) (db : Int), (∀ l ∈ q, l ≠ "") →
    ∃ k ≤ q.length,
      evictBytesLoop B b q (qSum q) d db =
        ⟨q.drop k, qSum (q.drop k), d + k, db + qSum (q.take k)⟩ ∧
      (qSum (q.drop k) + b ≤ B ∨ q.drop k = []) ∧
      (∀ j < k, qSum (q.drop j) + b > B) := by
  induction q with
  | nil =>
    intro d db _
    refine ⟨0, by simp, ?_, Or.inr rfl, by omega⟩
    simp [evictBytesLoop]
  | cons old rest ih =>
    intro d db hne
    by_cases hov : qSum (old :: rest) + b > B
    · have hemp : old ≠ "" := hne old (by simp)
      have harith : qSum (old :: rest) - slen old = qSum rest := by
        rw [qSum_cons]; ring
      have hstep : evictBytesLoop B b (old :: rest) (qSum (old :: rest)) d db
          = evictBytesLoop B b rest (qSum rest) (d + 1) (db + slen old) := by
        simp only [evictBytesLoop, if_pos hov, if_neg hemp, harith]
      obtain ⟨k, hk, heq, hfit, hmin⟩ :=
        ih (d + 1) (db + slen old) (fun l hl => hne l (by simp [hl]))
      refine ⟨k + 1, Nat.succ_le_succ hk, ?_, ?_, ?_⟩
      · rw [hstep, heq]
        simp only [List.drop_succ_cons, List.take_succ_cons, qSum_cons,
          EvOut.mk.injEq]
        exact ⟨trivial, trivial, by omega, by ring⟩
      · simpa [List.drop_succ_cons] using hfit
      · intro j hj
        match j with
        | 0 => simpa using hov
        | j + 1 =>
          have := hmin j (by omega)
          simpa using this
    · have hstep : evictBytesLoop B b (old :: rest) (qSum (old :: rest)) d db
          = ⟨old :: rest, qSum (old :: rest), d, db⟩ := by
        simp only [evictBytesLoop, if_neg hov]
      refine ⟨0, Nat.zero_le _, ?_, Or.inl (by simpa using le_of_not_lt hov),
        by omega⟩
      rw [hstep]
      simp [EvOut.mk.injEq]

/-- The byte guard leaves a suffix of the queue with a matching byte count,
touches no other counters than `dropped`/`droppedBytes`, and accepts only
when the new line now fits under the byte ceiling. -/
theorem byteGuard_spec (cfg : Config) (bytes : Int) (s : RelayState)
    (hsum : s.queuedBytes = qSum s.q) :
    ∃ k ≤ s.q.length,
      (byteGuard cfg bytes s).2.q = s.q.drop k ∧
      (byteGuard cfg bytes s).2.queuedBytes = qSum (s.q.drop k) ∧
      MiscEq s (byteGuard cfg bytes s).2 ∧
      ((byteGuard cfg bytes s).1 = true →
        (byteGuard cfg bytes s).2.queuedBytes + bytes ≤ cfg.maxQueueBytes) := by
  obtain ⟨k, hk, hq, hqb⟩ :=
    evictBytesLoop_suffix cfg.maxQueueBytes bytes s.q s.dropped s.droppedBytes
  have hq' : (evictBytesLoop cfg.maxQueueBytes bytes s.q s.queuedBytes
      s.dropped s.droppedBytes).q = s.q.drop k := by rw [hsum]; exact hq
  have hqb' : (evictBytesLoop cfg.maxQueueBytes bytes s.q s.queuedBytes
      s.dropped s.droppedBytes).queuedBytes = qSum (s.q.drop k) := by
    rw [hsum]; exact hqb
  by_cases hov : s.queuedBytes + bytes > cfg.maxQueueBytes
  · by_cases hpol : cfg.dropPolicy = .drop_newest
    · have hstep : byteGuard cfg bytes s = (false, s) := by
        simp only [byteGuard, if_pos hov, if_pos hpol]
      refine ⟨0, Nat.zero_le _, ?_, ?_, ?_, ?_⟩ <;> rw [hstep]
      · simp
      · simpa using hsum
      · simp [MiscEq]
      · intro h
        exact absurd h (by simp)
    · by_cases hov2 : qSum (s.q.drop k) + bytes > cfg.maxQueueBytes
      · refine ⟨k, hk, ?_, ?_, ?_, ?_⟩
        · simp [byteGuard, hov, hpol, hq', hqb', hov2]
        · simp [byteGuard, hov, hpol, hq', hqb', hov2]
        · simp [byteGuard, hov, hpol, hq', hqb', hov2, MiscEq]
        · simp [byteGuard, hov, hpol, hq', hqb', hov2]
      · refine ⟨k, hk, ?_, ?_, ?_, ?_⟩
        · simp [byteGuard, hov, hpol, hq', hqb', hov2]
        · simp [byteGuard, hov, hpol, hq', hqb', hov2]
        · simp [byteGuard, hov, hpol, hq', hqb', hov2, MiscEq]
        · simp [byteGuard, hov, hpol, hq', hqb', hov2]
          omega
  · have hstep : byteGuard cfg bytes s = (true, s) := by
      simp only [byteGuard, if_neg hov]
    refine ⟨0, Nat.zero_le _, ?_, ?_, ?_, ?_⟩ <;> rw [hstep]
    · simp
    · simpa using hsum
    · simp [MiscEq]
    · intro _
      simpa using not_lt.mp hov

/-- The count guard removes at most the head line, keeps the byte count in
sync, and accepts only when there is room for one more line. -/
theorem countGuard_spec (cfg : Config) (s : RelayState)
    (hsum : s.queuedBytes = qSum s.q) :
    ∃ k ≤ s.q.length,
      (countGuard cfg s).2.q = s.q.drop k ∧
      (countGuard cfg s).2.queuedBytes = qSum (s.q.drop k) ∧
      MiscEq s (countGuard cfg s).2 ∧
      ((countGuard cfg s).1 = true →
        (countGuard cfg s).2.q.length + 1 ≤ cfg.maxQueue) := by
  by_cases hcnt : s.q.length + 1 > cfg.maxQueue
  · by_cases hpol : cfg.dropPolicy = .drop_newest
    · have hstep : countGuard cfg s = (false, s) := by
        simp only [countGuard, if_pos hcnt, if_pos hpol]
      refine ⟨0, Nat.zero_le _, ?_, ?_, ?_, ?_⟩ <;> rw [hstep]
      · simp
      · simpa using hsum
      · simp [MiscEq]
      · intro h
        exact absurd h (by simp)
    · rcases hqe : s.q with _ | ⟨removed, rest⟩
      · have hcnt0 : ([] : List String).length + 1 > cfg.maxQueue := by
          rw [hqe] at hcnt
          exact hcnt
        have hstep : countGuard cfg s = (false, s) := by
          simp only [countGuard, hqe, if_pos hcnt0, if_neg hpol]
        refine ⟨0, Nat.zero_le _, ?_, ?_, ?_, ?_⟩ <;> rw [hstep]
        · simp [hqe]
        · simp [hqe, hsum]
        · simp [MiscEq]
        · intro h
          exact absurd h (by simp)
      · have hcntc : (removed :: rest).length + 1 > cfg.maxQueue := by
          rw [hqe] at hcnt
          exact hcnt
        by_cases hremp : removed = ""
        · have h0 : s.queuedBytes = qSum rest := by
            rw [hsum, hqe, hremp]
            simp
          have hstep0 : countGuard cfg s =
              (if rest.length + 1 > cfg.maxQueue
                then (false, { s with q := rest })
                else (true, { s with q := rest })) := by
            simp only [countGuard, hqe, if_pos hcntc, if_neg hpol,
              if_pos hremp]
          by_cases hcnt2 : rest.length + 1 > cfg.maxQueue
          · have hstep : countGuard cfg s = (false, { s with q := rest }) := by
              rw [hstep0, if_pos hcnt2]
            refine ⟨1, by simp, ?_, ?_, ?_, ?_⟩ <;> rw [hstep]
            · simp
            · simpa using h0
            · simp [MiscEq]
            · intro h
              exact absurd h (by simp)
          · have hstep : countGuard cfg s = (true, { s with q := rest }) := by
              rw [hstep0, if_neg hcnt2]
            refine ⟨1, by simp, ?_, ?_, ?_, ?_⟩ <;> rw [hstep]
            · simp
            · simpa using h0
            · simp [MiscEq]
            · intro _
              simpa using le_of_not_lt hcnt2
        · have h0 : s.queuedBytes - slen removed = qSum rest := by
            rw [hsum, hqe, qSum_cons]
            ring
          have hstep0 : countGuard cfg s =
              (if rest.length + 1 > cfg.maxQueue
                then (false, { s with
                  q := rest
                  queuedBytes := s.queuedBytes - slen removed
                  dropped := s.dropped + 1
                  droppedBytes := s.droppedBytes + slen removed })
                else (true, { s with
                  q := rest
                  queuedBytes := s.queuedBytes - slen removed
                  dropped := s.dropped + 1
                  droppedBytes := s.droppedBytes + slen removed })) := by
            simp only [countGuard, hqe, if_pos hcntc, if_neg hpol,
              if_neg hremp]
          by_cases hcnt2 : rest.length + 1 > cfg.maxQueue
          · have hstep : countGuard cfg s = (false, { s with
                q := rest
                queuedBytes := s.queuedBytes - slen removed
                dropped := s.dropped + 1
                droppedBytes := s.droppedBytes + slen removed }) := by
              rw [hstep0, if_pos hcnt2]
            refine ⟨1, by simp, ?_, ?_, ?_, ?_⟩ <;> rw [hstep]
            · simp
            · simpa using h0
            · simp [MiscEq]
            · intro h
              exact absurd h (by simp)
          · have hstep : countGuard cfg s = (true, { s with
                q := rest
                queuedBytes := s.queuedBytes - slen removed
                dropped := s.dropped + 1
                droppedBytes := s.droppedBytes + slen removed }) := by
              rw [hstep0, if_neg hcnt2]
            refine ⟨1, by simp, ?_, ?_, ?_, ?_⟩ <;> rw [hstep]
            · simp
            · simpa using h0
            · simp [MiscEq]
            · intro _
              simpa using le_of_not_lt hcnt2
  · have hstep : countGuard cfg s = (true, s) := by
      simp only [countGuard, if_neg hcnt]
    refine ⟨0, Nat.zero_le _, ?_, ?_, ?_, ?_⟩ <;> rw [hstep]
    · simp
    · simpa using hsum
    · simp [MiscEq]
    · intro _
      simpa using not_lt.mp hcnt

/-- `ensureCapacity` as a whole: the surviving queue is a suffix, the byte
count stays in sync, and acceptance guarantees room for the new line under
both ceilings. -/
theorem ensureCapacity_spec (cfg : Config) (bytes : Int) (s : RelayState)
    (hsum : s.queuedBytes = qSum s.q) :
    ∃ k ≤ s.q.length,
      (ensureCapacity cfg bytes s).2.q = s.q.drop k ∧
      (ensureCapacity cfg bytes s).2.queuedBytes = qSum (s.q.drop k) ∧
      MiscEq s (ensureCapacity cfg bytes s).2 ∧
      ((ensureCapacity cfg bytes s).1 = true →
        (ensureCapacity cfg bytes s).2.queuedBytes + bytes ≤ cfg.maxQueueBytes ∧
        (ensureCapacity cfg bytes s).2.q.length + 1 ≤ cfg.maxQueue) := by
  obtain ⟨k1, hk1, hq1, hqb1, hmisc1, hacc1⟩ := byteGuard_spec cfg bytes s hsum
  cases hfst : (byteGuard cfg bytes s).1 with
  | false =>
    have hpair : byteGuard cfg bytes s = (false, (byteGuard cfg bytes s).2) := by
      rw [← hfst]
    have hstep : ensureCapacity cfg bytes s =
        (false, (byteGuard cfg bytes s).2) := by
      unfold ensureCapacity
      rw [hpair]
    refine ⟨k1, hk1, ?_, ?_, ?_, ?_⟩ <;> rw [hstep]
    · exact hq1
    · exact hqb1
    · exact hmisc1
    · intro h
      exact absurd h (by simp)
  | true =>
    have hpair : byteGuard cfg bytes s = (true, (byteGuard cfg bytes s).2) := by
      rw [← hfst]
    have hstep : ensureCapacity cfg bytes s =
        countGuard cfg (byteGuard cfg bytes s).2 := by
      unfold ensureCapacity
      rw [hpair]
    have hsum1 : (byteGuard cfg bytes s).2.queuedBytes
        = qSum (byteGuard cfg bytes s).2.q := by rw [hq1, hqb1]
    obtain ⟨k2, hk2, hq2, hqb2, hmisc2, hacc2⟩ :=
      countGuard_spec cfg (byteGuard cfg bytes s).2 hsum1
    have hlen1 : (byteGuard cfg bytes s).2.q.length = s.q.length - k1 := by
      rw [hq1, List.length_drop]
    have hdrop : (byteGuard cfg bytes s).2.q.drop k2 = s.q.drop (k1 + k2) := by
      rw [hq1, List.drop_drop, Nat.add_comm]
    refine ⟨k1 + k2, by omega, ?_, ?_, ?_, ?_⟩
    · rw [hstep, hq2, hdrop]
    · rw [hstep, hqb2, hdrop]
    · rw [hstep]
      obtain ⟨a1, b1, c1, d1, e1, f1⟩ := hmisc1
      obtain ⟨a2, b2, c2, d2, e2, f2⟩ := hmisc2
      exact ⟨a2.trans a1, b2.trans b1, c2.trans c1, d2.trans d1,
        e2.trans e1, f2.trans f1⟩
    · intro hacc
      rw [hstep] at hacc
      constructor
      · have hbyte1 : (byteGuard cfg bytes s).2.queuedBytes + bytes
            ≤ cfg.maxQueueBytes := hacc1 hfst
        have hle : qSum ((byteGuard cfg bytes s).2.q.drop k2)
            ≤ qSum (byteGuard cfg bytes s).2.q := qSum_drop_le _ _
        rw [hstep, hqb2]
        rw [hsum1] at hbyte1
        linarith
      · rw [hstep]
        exact hacc2 hacc

/-- The specified queue invariant: the tracked byte counter equals the sum
of the queued line lengths, and both capacity ceilings hold. -/
def Inv (cfg : Config) (s : RelayState) : Prop :=
  s.queuedBytes = qSum s.q ∧ s.q.length ≤ cfg.maxQueue ∧
  s.queuedBytes ≤ cfg.maxQueueBytes

theorem enqueueFramed_inv (cfg : Config) (data : String) (s : RelayState)
    (h : Inv cfg s) : Inv cfg (enqueueFramed cfg data s) := by
  obtain ⟨hsum, hlen, hbytes⟩ := h
  by_cases hover : slen data > cfg.batchBytes
  · have hstep : enqueueFramed cfg data s =
        { s with
          dropped := s.dropped + 1
          droppedBytes := s.droppedBytes + slen data } := by
      simp only [enqueueFramed, if_pos hover]
    rw [hstep]
    exact ⟨hsum, hlen, hbytes⟩
  · obtain ⟨k, hk, hq, hqb, _, hacc⟩ := ensureCapacity_spec cfg (slen data) s hsum
    cases hfst : (ensureCapacity cfg (slen data) s).1 with
    | true =>
      have hpair : ensureCapacity cfg (slen data) s =
          (true, (ensureCapacity cfg (slen data) s).2) := by rw [← hfst]
      have hstep : enqueueFramed cfg data s =
          { (ensureCapacity cfg (slen data) s).2 with
            q := (ensureCapacity cfg (slen data) s).2.q ++ [data]
            queuedBytes :=
              (ensureCapacity cfg (slen data) s).2.queuedBytes + slen data } := by
        simp only [enqueueFramed, if_neg hover]
        rw [hpair]
      obtain ⟨hb, hc⟩ := hacc hfst
      rw [hstep]
      refine ⟨?_, ?_, ?_⟩
      · simp [hq, hqb]
      · simpa [hq] using hc
      · simpa using hb
    | false =>
      have hpair : ensureCapacity cfg (slen data) s =
          (false, (ensureCapacity cfg (slen data) s).2) := by rw [← hfst]
      have hstep : enqueueFramed cfg data s =
          { (ensureCapacity cfg (slen data) s).2 with
            dropped := (ensureCapacity cfg (slen data) s).2.dropped + 1
            droppedBytes :=
              (ensureCapacity cfg (slen data) s).2.droppedBytes + slen data } := by
        simp only [enqueueFramed, if_neg hover]
        rw [hpair]
      rw [hstep]
      refine ⟨?_, ?_, ?_⟩
      · simpa [hq] using hqb
      · calc (ensureCapacity cfg (slen data) s).2.q.length
            = (s.q.drop k).length := by rw [hq]
          _ ≤ s.q.length := by simp
          _ ≤ cfg.maxQueue := hlen
      · calc (ensureCapacity cfg (slen data) s).2.queuedBytes
            = qSum (s.q.drop k) := hqb
          _ ≤ qSum s.q := qSum_drop_le _ _
          _ ≤ cfg.maxQueueBytes := by rw [← hsum]; exact hbytes

theorem sendLine_inv (cfg : Config) (s : RelayState) (line : String)
    (h : Inv cfg s) : Inv cfg (sendLine cfg s line) := by
  unfold sendLine
  split
  · exact h
  · exact enqueueFramed_inv cfg _ s h

theorem sendChunk_inv (cfg : Config) (s : RelayState) (chunk : String)
    (h : Inv cfg s) : Inv cfg (sendChunk cfg s chunk) := by
  unfold sendChunk
  split
  · exact h
  · exact enqueueFramed_inv cfg _ s h

theorem send_inv (cfg : Config) (now : Int) (rand : ℚ) (payload : JVal)
    (s : RelayState) (h : Inv cfg s) :
    Inv cfg (send cfg now rand payload s) := by
  unfold send
  by_cases hc : s.closed = true
  · rw [if_pos hc]
    exact h
  · rw [if_neg hc]
    by_cases hsamp : cfg.sampleRate < 1 ∧ cfg.sampleRate ≤ rand
    · rw [if_pos hsamp]
      exact h
    · rw [if_neg hsamp]
      cases henc : cfg.encode with
      | none =>
        simp only [henc]
        exact enqueueFramed_inv cfg _ s h
      | some enc =>
        simp only [henc]
        cases hres : enc payload with
        | none =>
          simp only [hres]
          exact h
        | some line =>
          simp only [hres]
          exact enqueueFramed_inv cfg _ s h

/-- Full characterization of the drain loop: it pops the longest prefix of
the queue whose cumulative size stays within the batch bound, and stops at
the first line that would exceed it. -/
theorem drainLoop_spec (B : Int) (q : List String) :
    ∀ bytes : Int,
    ∃ k ≤ q.length,
      drainLoop B bytes q = (q.take k, q.drop k, bytes + qSum (q.take k)) ∧
      (∀ j < k, bytes + qSum (q.take (j + 1)) ≤ B) ∧
      (k = q.length ∨ ∃ l r2, q.drop k = l :: r2 ∧
        bytes + qSum (q.take k) + slen l > B) := by
  induction q with
  | nil =>
    intro bytes
    refine ⟨0, by simp, ?_, by omega, Or.inl rfl⟩
    simp [drainLoop]
  | cons line rest ih =>
    intro bytes
    by_cases h : bytes + slen line ≤ B
    · obtain ⟨k, hk, heq, hle, hstop⟩ := ih (bytes + slen line)
      refine ⟨k + 1, Nat.succ_le_succ hk, ?_, ?_, ?_⟩
      · simp only [drainLoop, if_pos h, heq]
        simp only [List.take_succ_cons, List.drop_succ_cons, qSum_cons,
          Prod.mk.injEq]
        exact ⟨trivial, trivial, by ring⟩
      · intro j hj
        match j with
        | 0 =>
          simpa using h
        | j + 1 =>
          have := hle j (by omega)
          simp only [List.take_succ_cons, qSum_cons]
          omega
      · rcases hstop with h1 | ⟨l, r2, hd, hg⟩
        · left
          simp [h1]
        · right
          refine ⟨l, r2, by simpa using hd, ?_⟩
          simp only [List.take_succ_cons, qSum_cons]
          omega
    · refine ⟨0, Nat.zero_le _, ?_, by omega, ?_⟩
      · simp [drainLoop, h]
      · right
        refine ⟨line, rest, by simp, ?_⟩
        simp only [List.take_zero, qSum_nil]
        omega

/-- The fields `drainBatch` never touches. -/
def DrainUntouched (s t : RelayState) : Prop :=
  t.dropped = s.dropped ∧ t.droppedBytes = s.droppedBytes ∧
  t.sentBatches = s.sentBatches ∧ t.sentBytes = s.sentBytes ∧
  t.failedFlushes = s.failedFlushes ∧ t.lastError = s.lastError ∧
  t.closed = s.closed ∧ t.flushing = s.flushing

/-- `drainBatch` pops some prefix of the queue: the prefix is maximal for
the batch-byte bound, exactly its bytes are subtracted, the result is the
concatenation of the drained lines (absent when nothing was drained), and
no counter is touched. -/
theorem drainBatch_core (cfg : Config) (s : RelayState) :
    ∃ k ≤ s.q.length,
      (drainBatch cfg s).2.q = s.q.drop k ∧
      (drainBatch cfg s).2.queuedBytes
        = s.queuedBytes - qSum (s.q.take k) ∧
      DrainUntouched s (drainBatch cfg s).2 ∧
      (drainBatch cfg s).1
        = (if k = 0 then none else some (String.join (s.q.take k))) ∧
      (∀ j < k, qSum (s.q.take (j + 1)) ≤ cfg.batchBytes) ∧
      (k = s.q.length ∨ ∃ l r2, s.q.drop k = l :: r2 ∧
        qSum (s.q.take k) + slen l > cfg.batchBytes) := by
  by_cases hnil : s.q.length = 0
  · have hq0 : s.q = [] := List.length_eq_zero.mp hnil
    have hstep : drainBatch cfg s = (none, s) := by
      simp only [drainBatch, if_pos hnil]
    refine ⟨0, Nat.zero_le _, ?_, ?_, ?_, ?_, by omega, Or.inl hnil.symm⟩ <;>
      rw [hstep]
    · simp
    · simp
    · simp [DrainUntouched]
    · simp
  · obtain ⟨k, hk, heq, hle, hstop⟩ := drainLoop_spec cfg.batchBytes s.q 0
    have hlen : (s.q.take k).length = k := by
      simpa using Nat.min_eq_left hk
    have hstep : drainBatch cfg s =
        (if (s.q.take k).length = 0 then none
          else some (String.join (s.q.take k)),
         { s with
           q := s.q.drop k
           queuedBytes := s.queuedBytes - (0 + qSum (s.q.take k)) }) := by
      simp only [drainBatch, if_neg hnil, heq]
      split <;> rfl
    refine ⟨k, hk, ?_, ?_, ?_, ?_, ?_, ?_⟩
    · rw [hstep]
    · rw [hstep]
      simp
    · rw [hstep]
      simp [DrainUntouched]
    · rw [hstep]
      simp only [hlen]
    · intro j hj
      have := hle j hj
      omega
    · rcases hstop with h1 | ⟨l, r2, hd, hg⟩
      · exact Or.inl h1
      · exact Or.inr ⟨l, r2, hd, by omega⟩

theorem drainBatch_inv (cfg : Config) (s : RelayState) (h : Inv cfg s) :
    Inv cfg (drainBatch cfg s).2 := by
  obtain ⟨hsum, hlen, hbytes⟩ := h
  obtain ⟨k, hk, hq, hqb, _, _, _, _⟩ := drainBatch_core cfg s
  have hdropsum : qSum (s.q.drop k) ≤ qSum s.q := qSum_drop_le _ _
  have htd := qSum_take_drop s.q k
  refine ⟨?_, ?_, ?_⟩
  · rw [hq, hqb, hsum]
    omega
  · rw [hq]
    calc (s.q.drop k).length ≤ s.q.length := by simp
      _ ≤ cfg.maxQueue := hlen
  · rw [hqb, hsum]
    have := qSum_take_nonneg s.q k
    omega

theorem flushNowNode_inv (cfg : Config) (sock : Bool) (ev : NodeHttpEvent)
    (s : RelayState) (h : Inv cfg s) :
    Inv cfg (flushNowNode cfg sock ev s) := by
  have hd := drainBatch_inv cfg s h
  unfold flushNowNode
  split
  · exact h
  · split
    · exact h
    · split
      · next s1 hmatch =>
        have : s1 = (drainBatch cfg s).2 := by rw [hmatch]
        rw [this] at *
        exact hd
      · next data s1 hmatch =>
        have hs1 : s1 = (drainBatch cfg s).2 := by rw [hmatch]
        subst hs1
        split
        · exact hd
        · split
          · exact hd
          · exact hd

theorem applyOp_inv (cfg : Config) (s : RelayState) (op : Op)
    (h : Inv cfg s) : Inv cfg (applyOp cfg s op) := by
  cases op with
  | send p now r => exact send_inv cfg now r p s h
  | sendLine l => exact sendLine_inv cfg s l h
  | sendChunk c => exact sendChunk_inv cfg s c h
  | drain => exact drainBatch_inv cfg s h
  | flush sock ev => exact flushNowNode_inv cfg sock ev s h

theorem run_preserves_inv (cfg : Config) (ops : List Op) :
    ∀ s : RelayState, Inv cfg s → Inv cfg (run cfg s ops) := by
  induction ops with
  | nil => intro s h; exact h
  | cons op ops ih =>
    intro s h
    have : run cfg s (op :: ops) = run cfg (applyOp cfg s op) ops := rfl
    rw [this]
    exact ih _ (applyOp_inv cfg s op h)

/-- Two relay states agreeing on every field are equal. -/
theorem RelayState.eqOfFields (s t : RelayState)
    (h1 : s.q = t.q) (h2 : s.queuedBytes = t.queuedBytes)
    (h3 : s.dropped = t.dropped) (h4 : s.droppedBytes = t.droppedBytes)
    (h5 : s.sentBatches = t.sentBatches) (h6 : s.sentBytes = t.sentBytes)
    (h7 : s.failedFlushes = t.failedFlushes) (h8 : s.lastError = t.lastError)
    (h9 : s.closed = t.closed) (h10 : s.flushing = t.flushing) : s = t := by
  cases s
  cases t
  simp_all

/-- The canonical state after `k` drop-oldest evictions. -/
def evicted (s : RelayState) (k : Nat) : RelayState :=
  { s with
    q := s.q.drop k
    queuedBytes := qSum (s.q.drop k)
    dropped := s.dropped + k
    droppedBytes := s.droppedBytes + qSum (s.q.take k) }

/-- Under `drop_oldest`, for a line that fits under both ceilings on its
own, `ensureCapacity` accepts after evicting exactly as many lines from the
front as needed, counting each. -/
theorem ensureCapacity_dropOldest (cfg : Config) (b : Int) (s : RelayState)
    (hpol : cfg.dropPolicy = .drop_oldest)
    (hsum : s.queuedBytes = qSum s.q)
    (hlen : s.q.length ≤ cfg.maxQueue)
    (hne : ∀ l ∈ s.q, l ≠ "")
    (hq1 : 1 ≤ cfg.maxQueue)
    (hb : b ≤ cfg.maxQueueBytes) :
    ∃ k ≤ s.q.length,
      ensureCapacity cfg b s = (true, evicted s k) ∧
      (∀ j < k, qSum (s.q.drop j) + b > cfg.maxQueueBytes
        ∨ s.q.length - j + 1 > cfg.maxQueue) := by
  have hpolne : ¬ cfg.dropPolicy = .drop_newest := by simp [hpol]
  -- byte guard
  obtain ⟨k0, hk0, hbg, hfit, hmin0⟩ :
      ∃ k0 ≤ s.q.length,
        byteGuard cfg b s = (true, evicted s k0) ∧
        qSum (s.q.drop k0) + b ≤ cfg.maxQueueBytes ∧
        (∀ j < k0, qSum (s.q.drop j) + b > cfg.maxQueueBytes) := by
    by_cases hovB : s.queuedBytes + b > cfg.maxQueueBytes
    · obtain ⟨k0, hk0, heq, hfit, hmin⟩ :=
        evictBytesLoop_spec cfg.maxQueueBytes b s.q s.dropped s.droppedBytes hne
      have heq' : evictBytesLoop cfg.maxQueueBytes b s.q s.queuedBytes
          s.dropped s.droppedBytes =
          ⟨s.q.drop k0, qSum (s.q.drop k0), s.dropped + k0,
            s.droppedBytes + qSum (s.q.take k0)⟩ := by
        rw [hsum]
        exact heq
      have hfit' : qSum (s.q.drop k0) + b ≤ cfg.maxQueueBytes := by
        rcases hfit with h | h
        · exact h
        · rw [h]
          simpa using hb
      refine ⟨k0, hk0, ?_, hfit', hmin⟩
      simp only [byteGuard, if_pos hovB, if_neg hpolne, heq']
      rw [if_neg (not_lt.mpr hfit')]
      rfl
    · refine ⟨0, Nat.zero_le _, ?_, ?_, by omega⟩
      · have hcanon : s = evicted s 0 := by
          apply RelayState.eqOfFields <;> simp [evicted, hsum]
        simp only [byteGuard, if_neg hovB]
        rw [← hcanon]
      · simp only [List.drop_zero]
        rw [← hsum]
        exact not_lt.mp hovB
  have hec : ensureCapacity cfg b s = countGuard cfg (evicted s k0) := by
    unfold ensureCapacity
    rw [hbg]
  -- count guard
  by_cases hcnt : (s.q.drop k0).length + 1 > cfg.maxQueue
  · have hlen0 : (s.q.drop k0).length = s.q.length - k0 := by simp
    have hne2 : s.q.drop k0 ≠ [] := by
      intro h
      rw [h] at hcnt
      simp at hcnt
      omega
    obtain ⟨r, rest, hdr⟩ : ∃ r rest, s.q.drop k0 = r :: rest := by
      cases hd : s.q.drop k0 with
      | nil => exact absurd hd hne2
      | cons r rest => exact ⟨r, rest, rfl⟩
    have hrmem : r ∈ s.q := List.drop_subset k0 s.q (hdr ▸ List.mem_cons_self r rest)
    have hrne : r ≠ "" := hne r hrmem
    have hrest : rest = s.q.drop (k0 + 1) := by
      have h2 : List.drop 1 (List.drop k0 s.q) = List.drop (k0 + 1) s.q :=
        List.drop_drop 1 k0 s.q
      rw [hdr] at h2
      simpa using h2
    have htake : s.q.take (k0 + 1) = s.q.take k0 ++ [r] := by
      have := List.take_add s.q k0 1
      rw [hdr] at this
      simpa using this
    have hcnt2 : ¬ rest.length + 1 > cfg.maxQueue := by
      have hlendr : (s.q.drop k0).length = rest.length + 1 := by
        rw [hdr]
        simp
      omega
    have hcntr : (r :: rest).length + 1 > cfg.maxQueue := by
      rw [← hdr]
      exact hcnt
    have hcg : countGuard cfg (evicted s k0) = (true, evicted s (k0 + 1)) := by
      simp only [countGuard, if_neg hpolne, evicted, hdr, if_neg hrne]
      rw [if_pos hcntr, if_neg hcnt2]
      refine congrArg _ ?_
      apply RelayState.eqOfFields
      · exact hrest
      · show qSum (r :: rest) - slen r = qSum (s.q.drop (k0 + 1))
        rw [qSum_cons, hrest]
        ring
      · show s.dropped + k0 + 1 = s.dropped + (k0 + 1)
        omega
      · show s.droppedBytes + qSum (s.q.take k0) + slen r
            = s.droppedBytes + qSum (s.q.take (k0 + 1))
        rw [htake, qSum_append, qSum_cons]
        simp
        ring
      · rfl
      · rfl
      · rfl
      · rfl
      · rfl
      · rfl
    refine ⟨k0 + 1, ?_, ?_, ?_⟩
    · have : (s.q.drop k0).length = rest.length + 1 := by rw [hdr]; simp
      omega
    · rw [hec, hcg]
    · intro j hj
      rcases Nat.lt_succ_iff_lt_or_eq.mp hj with hj' | hj'
      · exact Or.inl (hmin0 j hj')
      · subst hj'
        right
        omega
  · have hcg : countGuard cfg (evicted s k0) = (true, evicted s k0) := by
      have hcnt' : ¬ (evicted s k0).q.length + 1 > cfg.maxQueue := hcnt
      simp only [countGuard, if_neg hcnt']
    exact ⟨k0, hk0, by rw [hec, hcg], fun j hj => Or.inl (hmin0 j hj)⟩

/- Concrete instances used by the witnesses. -/

/-- A configuration with every default of `DEFAULTS` applied. -/
def cfgBase : Config :=
  { endpoint := "http://collector.example/sink"
    batchMs := 100
    batchBytes := 262144
    maxQueueBytes := 5242880
    maxQueue := 10000
    dropPolicy := .drop_oldest
    headers := []
    keepAlive := true
    sampleRate := 1
    encode := none
    source := []
    defaultTopic := "raw" }

def cfgA : Config := { cfgBase with maxQueue := 2 }

def cfgB : Config := { cfgBase with batchBytes := 50 }

def lineA : String := "aaaaaaaaa\n"

def lineB : String := "bbbbbbbbb\n"

def lineC : String := "ccccccccc\n"

def t1 : String := "1111111111111111111\n"

def t2 : String := "2222222222222222222\n"

def t3 : String := "3333333333333333333\n"

def t4 : String := "4444444444444444444\n"

def t5 : String := "5555555555555555555\n"

def stateAB : RelayState :=
  { initState with q := [lineA, lineB], queuedBytes := 20 }

def stateB5 : RelayState :=
  { initState with q := [t1, t2, t3, t4, t5], queuedBytes := 100 }

/-- C1: for every Relay configuration (with a non-negative byte ceiling) and
every finite sequence of `send`/`sendLine`/`sendChunk`/`drainBatch`/`flushNow`
operations from a fresh instance, the tracked `queuedBytes` equals the exact
sum of the lengths of the queued lines, the queue holds at most `maxQueue`
lines, and `queuedBytes` is at most `maxQueueBytes` after every operation
(every prefix of the sequence is itself such a sequence). -/
theorem relay_queue_invariant (cfg : Config) (h0 : 0 ≤ cfg.maxQueueBytes)
    (ops : List Op) :
    (run cfg initState ops).queuedBytes = qSum (run cfg initState ops).q ∧
    (run cfg initState ops).q.length ≤ cfg.maxQueue ∧
    (run cfg initState ops).queuedBytes ≤ cfg.maxQueueBytes :=
  run_preserves_inv cfg ops initState
    ⟨rfl, by simp [initState], by simpa [initState] using h0⟩

theorem relay_queue_invariant_witness :
    (0 : Int) ≤ cfgA.maxQueueBytes ∧
    ((run cfgA initState [Op.sendLine lineA, Op.sendLine lineB,
        Op.sendLine lineC, Op.drain]).queuedBytes
      = qSum (run cfgA initState [Op.sendLine lineA, Op.sendLine lineB,
        Op.sendLine lineC, Op.drain]).q ∧
     (run cfgA initState [Op.sendLine lineA, Op.sendLine lineB,
        Op.sendLine lineC, Op.drain]).q.length ≤ cfgA.maxQueue ∧
     (run cfgA initState [Op.sendLine lineA, Op.sendLine lineB,
        Op.sendLine lineC, Op.drain]).queuedBytes ≤ cfgA.maxQueueBytes) :=
  ⟨by decide, relay_queue_invariant cfgA (by decide)
    [Op.sendLine lineA, Op.sendLine lineB, Op.sendLine lineC, Op.drain]⟩

/-- C3: with `dropPolicy = drop_oldest`, enqueuing a line that itself fits
under both ceilings evicts lines strictly from the front of the queue, only
as long as the new line does not yet fit under a ceiling (the minimality
clause), then appends the new line at the tail; each evicted line increments
`dropped` by one and `droppedBytes` by that line's length. -/
theorem dropOldest_evicts_from_front (cfg : Config) (s : RelayState)
    (line : String)
    (hpol : cfg.dropPolicy = .drop_oldest)
    (hclosed : s.closed = false)
    (hsum : s.queuedBytes = qSum s.q)
    (hlen : s.q.length ≤ cfg.maxQueue)
    (hne : ∀ l ∈ s.q, l ≠ "")
    (hq1 : 1 ≤ cfg.maxQueue)
    (hfitB : slen (withNL line) ≤ cfg.maxQueueBytes)
    (hfitBatch : slen (withNL line) ≤ cfg.batchBytes) :
    ∃ k ≤ s.q.length,
      (sendLine cfg s line).q = s.q.drop k ++ [withNL line] ∧
      (sendLine cfg s line).queuedBytes
        = qSum (s.q.drop k) + slen (withNL line) ∧
      (sendLine cfg s line).dropped = s.dropped + k ∧
      (sendLine cfg s line).droppedBytes
        = s.droppedBytes + qSum (s.q.take k) ∧
      (∀ j < k, qSum (s.q.drop j) + slen (withNL line) > cfg.maxQueueBytes
        ∨ s.q.length - j + 1 > cfg.maxQueue) := by
  obtain ⟨k, hk, hec, hmin⟩ :=
    ensureCapacity_dropOldest cfg (slen (withNL line)) s hpol hsum hlen hne
      hq1 hfitB
  have hstep : sendLine cfg s line =
      { evicted s k with
        q := (evicted s k).q ++ [withNL line]
        queuedBytes := (evicted s k).queuedBytes + slen (withNL line) } := by
    unfold sendLine
    rw [if_neg (by simp [hclosed])]
    unfold enqueueFramed
    rw [if_neg (not_lt.mpr hfitBatch), hec]
  refine ⟨k, hk, ?_, ?_, ?_, ?_, hmin⟩ <;> rw [hstep] <;> simp [evicted]

theorem dropOldest_evicts_from_front_witness :
    (∃ k ≤ stateAB.q.length,
      (sendLine cfgA stateAB lineC).q = stateAB.q.drop k ++ [withNL lineC] ∧
      (sendLine cfgA stateAB lineC).queuedBytes
        = qSum (stateAB.q.drop k) + slen (withNL lineC) ∧
      (sendLine cfgA stateAB lineC).dropped = stateAB.dropped + k ∧
      (sendLine cfgA stateAB lineC).droppedBytes
        = stateAB.droppedBytes + qSum (stateAB.q.take k) ∧
      (∀ j < k,
        qSum (stateAB.q.drop j) + slen (withNL lineC) > cfgA.maxQueueBytes
        ∨ stateAB.q.length - j + 1 > cfgA.maxQueue)) ∧
    (run cfgA initState
      [Op.sendLine lineA, Op.sendLine lineB, Op.sendLine lineC]).q
        = [lineB, lineC] ∧
    (run cfgA initState
      [Op.sendLine lineA, Op.sendLine lineB, Op.sendLine lineC]).dropped = 1 ∧
    (run cfgA initState
      [Op.sendLine lineA, Op.sendLine lineB, Op.sendLine lineC]).droppedBytes
        = 10 := by
  refine ⟨dropOldest_evicts_from_front cfgA stateAB lineC (by decide)
    (by decide) (by decide) (by decide) (by decide) (by decide) (by decide)
    (by decide), ?_, ?_, ?_⟩ <;> decide

/-- C4: `drainBatch` pops lines from the head of the queue while the running
byte total stays within `batchBytes`, stops at the first line that would
exceed it (no line is split), subtracts exactly the drained bytes from
`queuedBytes`, touches nothing else, and returns the concatenation of the
drained lines, or an absent result when nothing was drained. -/
theorem drainBatch_pops_head (cfg : Config) (s : RelayState) :
    ∃ k ≤ s.q.length,
      (drainBatch cfg s).2.q = s.q.drop k ∧
      (drainBatch cfg s).2.queuedBytes
        = s.queuedBytes - qSum (s.q.take k) ∧
      DrainUntouched s (drainBatch cfg s).2 ∧
      (drainBatch cfg s).1
        = (if k = 0 then none else some (String.join (s.q.take k))) ∧
      (∀ j < k, qSum (s.q.take (j + 1)) ≤ cfg.batchBytes) ∧
      (k = s.q.length ∨ ∃ l r2, s.q.drop k = l :: r2 ∧
        qSum (s.q.take k) + slen l > cfg.batchBytes) :=
  drainBatch_core cfg s

theorem drainBatch_pops_head_witness :
    (∃ k ≤ stateB5.q.length,
      (drainBatch cfgB stateB5).2.q = stateB5.q.drop k ∧
      (drainBatch cfgB stateB5).2.queuedBytes
        = stateB5.queuedBytes - qSum (stateB5.q.take k) ∧
      DrainUntouched stateB5 (drainBatch cfgB stateB5).2 ∧
      (drainBatch cfgB stateB5).1
        = (if k = 0 then none else some (String.join (stateB5.q.take k))) ∧
      (∀ j < k, qSum (stateB5.q.take (j + 1)) ≤ cfgB.batchBytes) ∧
      (k = stateB5.q.length ∨ ∃ l r2, stateB5.q.drop k = l :: r2 ∧
        qSum (stateB5.q.take k) + slen l > cfgB.batchBytes)) ∧
    (drainBatch cfgB stateB5).1 = some (t1 ++ t2) ∧
    (drainBatch cfgB stateB5).2.q = [t3, t4, t5] ∧
    (drainBatch cfgB stateB5).2.queuedBytes = 60 := by
  refine ⟨drainBatch_pops_head cfgB stateB5, ?_, ?_, ?_⟩ <;> decide

/-- C5: a flush attempt entered while the `flushing` flag is set, or while
the instance is closed, performs no drain and no send and leaves all state
unchanged — in both the Node and the worker relay.  Together with the flag
being held for the whole send phase of an attempt, this is the
single-in-flight-batch guarantee. -/
theorem flush_guard_no_reentry (cfg : Config) (sock : Bool)
    (ev : NodeHttpEvent) (res : FetchOutcome) (s : RelayState)
    (h : s.flushing = true ∨ s.closed = true) :
    flushNowNode cfg sock ev s = s ∧ flushNowWorker cfg res s = s := by
  constructor
  · unfold flushNowNode
    by_cases hc : s.closed = true
    · rw [if_pos hc]
    · rw [if_neg hc, if_pos (h.resolve_right hc)]
  · unfold flushNowWorker
    by_cases hc : s.closed = true
    · rw [if_pos hc]
    · rw [if_neg hc, if_pos (h.resolve_right hc)]

def stateFlushing : RelayState :=
  { initState with q := [lineA], queuedBytes := 10, flushing := true }

theorem flush_guard_no_reentry_witness :
    (stateFlushing.flushing = true ∨ stateFlushing.closed = true) ∧
    (flushNowNode cfgBase true (NodeHttpEvent.response 200) stateFlushing
        = stateFlushing ∧
      flushNowWorker cfgBase (FetchOutcome.ok 200) stateFlushing
        = stateFlushing) :=
  ⟨by decide, flush_guard_no_reentry cfgBase true (NodeHttpEvent.response 200)
    (FetchOutcome.ok 200) stateFlushing (by decide)⟩

/-- A cons-headed list is a prefix only of lists with the same head. -/
theorem isPrefixOf_cons_head (c : Char) (p s : List Char)
    (h : (c :: p).isPrefixOf s = true) : ∃ ts, s = c :: ts := by
  cases s with
  | nil => simp [List.isPrefixOf] at h
  | cons a as =>
    have h' : (c == a && p.isPrefixOf as) = true := h
    have hca : c = a := by
      simp only [Bool.and_eq_true, beq_iff_eq] at h'
      exact h'.1
    exact ⟨as, by rw [hca]⟩

/-- An http(s) endpoint cannot also carry the `tcp://` scheme. -/
theorem not_tcp_of_web (e : String)
    (h : strStartsWith e "http://" = true
      ∨ strStartsWith e "https://" = true) :
    strStartsWith e "tcp://" = false := by
  have hh : ∃ ts, e.data = 'h' :: ts := by
    rcases h with h | h
    · exact isPrefixOf_cons_head 'h' "ttp://".data e.data h
    · exact isPrefixOf_cons_head 'h' "ttps://".data e.data h
  obtain ⟨ts, hts⟩ := hh
  show "tcp://".data.isPrefixOf e.data = false
  rw [hts]
  rfl

/-- C6 (amended): `connect()` raises the unsupported-protocol configuration
error, synchronously and as its only exit, for any endpoint scheme other
than `tcp://`, `http://` or `https://`, and starts no timer; for http(s)
endpoints it raises nothing and starts the periodic flush timer at
`batchMs`; for `tcp://` endpoints it does so exactly when
`parseInt(portStr, 10)` on the `host:port` part yields a legal port (an
integer in 0..65535) — otherwise `net.createConnection` raises
`ERR_SOCKET_BAD_PORT` before the timer is started. -/
theorem connect_scheme_and_port_check (cfg : Config) :
    (¬(strStartsWith cfg.endpoint "tcp://" = true
        ∨ strStartsWith cfg.endpoint "http://" = true
        ∨ strStartsWith cfg.endpoint "https://" = true) →
      connect cfg
        = .error ("Unsupported endpoint protocol: " ++ cfg.endpoint)) ∧
    ((strStartsWith cfg.endpoint "http://" = true
        ∨ strStartsWith cfg.endpoint "https://" = true) →
      connect cfg = .ok ⟨false, cfg.batchMs⟩) ∧
    (strStartsWith cfg.endpoint "tcp://" = true →
      (isLegalPort (jsParseInt10 (tcpPortStr cfg.endpoint)) = true →
        connect cfg = .ok ⟨true, cfg.batchMs⟩) ∧
      (isLegalPort (jsParseInt10 (tcpPortStr cfg.endpoint)) = false →
        connect cfg = .error "ERR_SOCKET_BAD_PORT")) := by
  refine ⟨?_, ?_, ?_⟩
  · intro hno
    have h1 : ¬ strStartsWith cfg.endpoint "tcp://" = true :=
      fun h => hno (Or.inl h)
    have h2 : ¬ (strStartsWith cfg.endpoint "http://" = true
        ∨ strStartsWith cfg.endpoint "https://" = true) :=
      fun h => hno (Or.inr h)
    unfold connect
    rw [if_neg h1, if_neg h2]
  · intro hweb
    have htcp : ¬ strStartsWith cfg.endpoint "tcp://" = true := by
      rw [not_tcp_of_web cfg.endpoint hweb]
      exact Bool.false_ne_true
    unfold connect
    rw [if_neg htcp, if_pos hweb]
  · intro htcp
    constructor
    · intro hlegal
      unfold connect
      rw [if_pos htcp, if_pos hlegal]
    · intro hbad
      have hn : ¬ isLegalPort (jsParseInt10 (tcpPortStr cfg.endpoint))
          = true := by
        rw [hbad]
        exact Bool.false_ne_true
      unfold connect
      rw [if_pos htcp, if_neg hn]

def cfgFtp : Config := { cfgBase with endpoint := "ftp://collector.example" }

def cfgTcp : Config :=
  { cfgBase with endpoint := "tcp://collector.example:9000" }

def cfgTcpNoPort : Config :=
  { cfgBase with endpoint := "tcp://collector.example" }

/-- C6 counterexample: `tcp://` is a supported scheme, yet `connect()` on
`tcp://collector.example` raises: the port part of `host:port` is
`undefined`, so `parseInt` gives `NaN` and `net.createConnection` throws
`ERR_SOCKET_BAD_PORT` before the flush timer is started — contradicting
the claim that every supported-scheme endpoint connects with the timer
running at `batchMs`. -/
theorem connect_supported_scheme_raises :
    strStartsWith cfgTcpNoPort.endpoint "tcp://" = true ∧
    tcpPortStr cfgTcpNoPort.endpoint = none ∧
    connect cfgTcpNoPort = Except.error "ERR_SOCKET_BAD_PORT" :=
  ⟨rfl, rfl, rfl⟩

theorem connect_scheme_and_port_check_witness :
    connect cfgFtp
      = Except.error ("Unsupported endpoint protocol: " ++ cfgFtp.endpoint) ∧
    connect cfgBase = Except.ok ⟨false, cfgBase.batchMs⟩ ∧
    connect cfgTcp = Except.ok ⟨true, cfgTcp.batchMs⟩ :=
  ⟨(connect_scheme_and_port_check cfgFtp).1 (by decide),
   (connect_scheme_and_port_check cfgBase).2.1 (Or.inl (by decide)),
   ((connect_scheme_and_port_check cfgTcp).2.2 (by decide)).1 (by decide)⟩

/-- C7: with `dropPolicy = drop_newest`, an incoming line whose acceptance
would exceed the byte ceiling or the line-count ceiling is rejected
outright: queue and `queuedBytes` are exactly as before, nothing is evicted,
and `dropped`/`droppedBytes` grow by one and by the line's length. -/
theorem dropNewest_rejects_incoming (cfg : Config) (s : RelayState)
    (line : String)
    (hpol : cfg.dropPolicy = .drop_newest)
    (hclosed : s.closed = false)
    (hexceed : s.queuedBytes + slen (withNL line) > cfg.maxQueueBytes
      ∨ s.q.length + 1 > cfg.maxQueue) :
    sendLine cfg s line =
      { s with
        dropped := s.dropped + 1
        droppedBytes := s.droppedBytes + slen (withNL line) } := by
  have hstep : sendLine cfg s line = enqueueFramed cfg (withNL line) s := by
    unfold sendLine
    rw [if_neg (by simp [hclosed])]
  rw [hstep]
  by_cases hover : slen (withNL line) > cfg.batchBytes
  · unfold enqueueFramed
    rw [if_pos hover]
  · have hec : ensureCapacity cfg (slen (withNL line)) s = (false, s) := by
      by_cases hovB : s.queuedBytes + slen (withNL line) > cfg.maxQueueBytes
      · have hbg : byteGuard cfg (slen (withNL line)) s = (false, s) := by
          simp only [byteGuard, if_pos hovB, if_pos hpol]
        unfold ensureCapacity
        rw [hbg]
      · have hcnt : s.q.length + 1 > cfg.maxQueue := hexceed.resolve_left hovB
        have hbg : byteGuard cfg (slen (withNL line)) s = (true, s) := by
          simp only [byteGuard, if_neg hovB]
        have hcg : countGuard cfg s = (false, s) := by
          simp only [countGuard, if_pos hcnt, if_pos hpol]
        unfold ensureCapacity
        rw [hbg]
        exact hcg
    unfold enqueueFramed
    rw [if_neg hover, hec]

def cfgNewest : Config :=
  { cfgBase with maxQueue := 1, dropPolicy := .drop_newest }

def cfgNewestBytes : Config :=
  { cfgBase with maxQueueBytes := 15, dropPolicy := .drop_newest }

def stateOne : RelayState := { initState with q := [lineA], queuedBytes := 10 }

theorem dropNewest_rejects_incoming_witness :
    ((cfgNewest.dropPolicy = DropPolicy.drop_newest ∧
      stateOne.closed = false ∧
      (stateOne.queuedBytes + slen (withNL lineB) > cfgNewest.maxQueueBytes
        ∨ stateOne.q.length + 1 > cfgNewest.maxQueue)) ∧
    sendLine cfgNewest stateOne lineB =
      { stateOne with
        dropped := stateOne.dropped + 1
        droppedBytes := stateOne.droppedBytes + slen (withNL lineB) }) ∧
    ((stateOne.queuedBytes + slen (withNL lineB)
        > cfgNewestBytes.maxQueueBytes) ∧
    sendLine cfgNewestBytes stateOne lineB =
      { stateOne with
        dropped := stateOne.dropped + 1
        droppedBytes := stateOne.droppedBytes + slen (withNL lineB) }) :=
  ⟨⟨⟨by decide, by decide, by decide⟩,
    dropNewest_rejects_incoming cfgNewest stateOne lineB (by decide)
      (by decide) (by decide)⟩,
   ⟨by decide,
    dropNewest_rejects_incoming cfgNewestBytes stateOne lineB (by decide)
      (by decide) (Or.inl (by decide))⟩⟩

/-- C10: `sendLine` and `sendChunk` never apply the probabilistic sampling
drop: their results are insensitive to `sampleRate` (and they take no random
draw at all — only `send()` does), and an argument passing the oversize and
capacity checks is enqueued verbatim except for the appended trailing
newline when missing. -/
theorem sendLine_sendChunk_ignore_sampling (cfg : Config) (x : ℚ)
    (s : RelayState) (line chunk : String) :
    sendLine { cfg with sampleRate := x } s line = sendLine cfg s line ∧
    sendChunk { cfg with sampleRate := x } s chunk = sendChunk cfg s chunk ∧
    (s.closed = false → slen (withNL line) ≤ cfg.batchBytes →
      (ensureCapacity cfg (slen (withNL line)) s).1 = true →
      (sendLine cfg s line).q
        = (ensureCapacity cfg (slen (withNL line)) s).2.q ++ [withNL line]) := by
  refine ⟨rfl, rfl, ?_⟩
  intro hcl hsz hacc
  have hstep : sendLine cfg s line = enqueueFramed cfg (withNL line) s := by
    unfold sendLine
    rw [if_neg (by simp [hcl])]
  have hpair : ensureCapacity cfg (slen (withNL line)) s
      = (true, (ensureCapacity cfg (slen (withNL line)) s).2) := by
    rw [← hacc]
  rw [hstep]
  unfold enqueueFramed
  rw [if_neg (not_lt.mpr hsz), hpair]

theorem sendLine_sendChunk_ignore_sampling_witness :
    (sendLine { cfgBase with sampleRate := 0 } stateOne lineB
      = sendLine cfgBase stateOne lineB) ∧
    (sendLine cfgBase stateOne lineB).q
      = (ensureCapacity cfgBase (slen (withNL lineB)) stateOne).2.q
        ++ [withNL lineB] :=
  ⟨(sendLine_sendChunk_ignore_sampling cfgBase 0 stateOne lineB lineB).1,
   (sendLine_sendChunk_ignore_sampling cfgBase 0 stateOne lineB lineB).2.2
     (by decide) (by decide) (by decide)⟩

/-- C2 counterexample: in the Node relay (relay.ts), a request-lane flush
whose HTTP exchange yields a non-success status (here 500) is counted as a
sent batch: `failedFlushes` stays 0, `sentBatches` becomes 1, `lastError`
is cleared — the response status is never inspected.  This contradicts the
claim that a non-success status increments `failedFlushes`, sets
`lastError` and does not increment `sentBatches`. -/
theorem node_http_nonsuccess_counted_sent :
    (flushNowNode cfgBase true (NodeHttpEvent.response 500)
      stateOne).failedFlushes = 0 ∧
    (flushNowNode cfgBase true (NodeHttpEvent.response 500)
      stateOne).sentBatches = 1 ∧
    (flushNowNode cfgBase true (NodeHttpEvent.response 500)
      stateOne).lastError = none := by
  refine ⟨?_, ?_, ?_⟩ <;> decide

/-- C2 amended: in the worker (fetch-based) relay, a flush whose `fetch`
resolves with a non-ok status increments `failedFlushes` by exactly one,
sets `lastError`, leaves `sentBatches`/`sentBytes` untouched, and the
drained batch is discarded — the queue becomes a proper suffix of what it
was, never replayed.  The Node relay instead counts any completed request
lane exchange as sent regardless of status. -/
theorem worker_http_nonsuccess_failed_flush (cfg : Config) (s : RelayState)
    (code : Nat) (l : String) (rest : List String)
    (hq : s.q = l :: rest)
    (hclosed : s.closed = false) (hflush : s.flushing = false)
    (hfit : slen l ≤ cfg.batchBytes)
    (htcpf : strStartsWith cfg.endpoint "tcp://" = false)
    (hhttp : strStartsWith cfg.endpoint "http://" = true
      ∨ strStartsWith cfg.endpoint "https://" = true) :
    (∃ k, 1 ≤ k ∧ k ≤ s.q.length ∧
      (flushNowWorker cfg (FetchOutcome.notOk code) s).q = s.q.drop k ∧
      (flushNowWorker cfg (FetchOutcome.notOk code) s).failedFlushes
        = s.failedFlushes + 1 ∧
      (flushNowWorker cfg (FetchOutcome.notOk code) s).lastError.isSome
        = true ∧
      (flushNowWorker cfg (FetchOutcome.notOk code) s).sentBatches
        = s.sentBatches ∧
      (flushNowWorker cfg (FetchOutcome.notOk code) s).sentBytes
        = s.sentBytes) ∧
    (∀ (sock : Bool) (ev : NodeHttpEvent),
      (flushNowNode cfg sock ev s).sentBatches = s.sentBatches + 1 ∧
      (flushNowNode cfg sock ev s).failedFlushes = s.failedFlushes ∧
      (flushNowNode cfg sock ev s).lastError = none) := by
  obtain ⟨k, hk, heq, hle, hstop⟩ := drainLoop_spec cfg.batchBytes s.q 0
  have hkpos : 1 ≤ k := by
    rcases Nat.eq_zero_or_pos k with hk0 | hk0
    · exfalso
      subst hk0
      rcases hstop with h1 | ⟨l2, r2, hd, hg⟩
      · rw [hq] at h1
        simp at h1
      · rw [List.drop_zero, hq] at hd
        injection hd with hd1 _
        subst hd1
        simp at hg
        omega
    · exact hk0
  have hknz : ¬ (s.q.take k).length = 0 := by
    have : (s.q.take k).length = k := by simpa using Nat.min_eq_left hk
    omega
  constructor
  · -- the worker lane
    have hq0 : ¬ s.q.length = 0 := by
      rw [hq]
      simp
    have hstep : flushNowWorker cfg (FetchOutcome.notOk code) s =
        { s with
          q := s.q.drop k
          queuedBytes := s.queuedBytes - (0 + qSum (s.q.take k))
          failedFlushes := s.failedFlushes + 1
          lastError := some ("triager " ++ toString code)
          flushing := false } := by
      unfold flushNowWorker
      rw [if_neg (by simp [hclosed]), if_neg (by simp [hflush]),
        if_neg hq0, heq]
      simp only [if_neg hknz]
    refine ⟨k, hkpos, hk, ?_, ?_, ?_, ?_, ?_⟩ <;> rw [hstep] <;> rfl
  · -- the Node lane counts the exchange as sent whatever the status
    intro sock ev
    obtain ⟨k2, hk2, hq2, hqb2, hunt, hfst, hle2, hstop2⟩ :=
      drainBatch_core cfg s
    obtain ⟨hud, hudb, husB, husb2, huf, hule, hucl, hufl⟩ := hunt
    have hk2nz : ¬ k2 = 0 := by
      intro hk0
      subst hk0
      rcases hstop2 with h1 | ⟨l2, r2, hd, hg⟩
      · rw [hq] at h1
        simp at h1
      · rw [List.drop_zero, hq] at hd
        injection hd with hd1 _
        subst hd1
        simp at hg
        omega
    obtain ⟨res2, s1, hds⟩ : ∃ r s1, drainBatch cfg s = (r, s1) :=
      ⟨(drainBatch cfg s).1, (drainBatch cfg s).2, rfl⟩
    have hproj2 : (drainBatch cfg s).2 = s1 := by rw [hds]
    have hres2 : res2 = some (String.join (s.q.take k2)) := by
      have h1 : (drainBatch cfg s).1 = res2 := by rw [hds]
      rw [← h1, hfst, if_neg hk2nz]
    subst hres2
    have hs1sB : s1.sentBatches = s.sentBatches := by
      rw [← hproj2]
      exact husB
    have hs1f : s1.failedFlushes = s.failedFlushes := by
      rw [← hproj2]
      exact huf
    have hstepN : flushNowNode cfg sock ev s =
        { s1 with
          sentBatches := s1.sentBatches + 1
          sentBytes := s1.sentBytes + slen (String.join (s.q.take k2))
          lastError := none
          flushing := false } := by
      unfold flushNowNode
      rw [if_neg (by simp [hclosed]), if_neg (by simp [hflush])]
      simp only [hds]
      rw [if_neg (by simp [htcpf]), if_pos hhttp]
    refine ⟨?_, ?_, ?_⟩ <;> rw [hstepN]
    · show s1.sentBatches + 1 = s.sentBatches + 1
      rw [hs1sB]
    · show s1.failedFlushes = s.failedFlushes
      exact hs1f

theorem worker_http_nonsuccess_failed_flush_witness :
    (∃ k, 1 ≤ k ∧ k ≤ stateOne.q.length ∧
      (flushNowWorker cfgBase (FetchOutcome.notOk 500) stateOne).q
        = stateOne.q.drop k ∧
      (flushNowWorker cfgBase (FetchOutcome.notOk 500)
        stateOne).failedFlushes = stateOne.failedFlushes + 1 ∧
      (flushNowWorker cfgBase (FetchOutcome.notOk 500)
        stateOne).lastError.isSome = true ∧
      (flushNowWorker cfgBase (FetchOutcome.notOk 500) stateOne).sentBatches
        = stateOne.sentBatches ∧
      (flushNowWorker cfgBase (FetchOutcome.notOk 500) stateOne).sentBytes
        = stateOne.sentBytes) ∧
    (∀ (sock : Bool) (ev : NodeHttpEvent),
      (flushNowNode cfgBase sock ev stateOne).sentBatches
        = stateOne.sentBatches + 1 ∧
      (flushNowNode cfgBase sock ev stateOne).failedFlushes
        = stateOne.failedFlushes ∧
      (flushNowNode cfgBase sock ev stateOne).lastError = none) :=
  worker_http_nonsuccess_failed_flush cfgBase stateOne 500 lineA []
    (by decide) (by decide) (by decide) (by decide) (by decide) (by decide)

@[simp] theorem objGet_nil (k : String) : objGet [] k = none := rfl

theorem objGet_cons (k1 : String) (v1 : JVal) (o : List (String × JVal))
    (k : String) :
    objGet ((k1, v1) :: o) k = if k1 = k then some v1 else objGet o k := rfl

/-- In-place update distributed through lookup: setting key `k` changes only
the looked-up value at `k`, when present. -/
theorem objGet_map_setkey_same (k : String) (v : JVal) :
    ∀ o : List (String × JVal),
      objGet (o.map (fun kv => if kv.1 = k then (kv.1, v) else kv)) k
        = (objGet o k).map (fun _ => v) := by
  intro o
  induction o with
  | nil => rfl
  | cons kv o ih =>
    obtain ⟨k1, v1⟩ := kv
    by_cases hk : k1 = k
    · simp [objGet_cons, hk]
    · simp [objGet_cons, hk, ih]

theorem objGet_map_setkey_other (k k' : String) (v : JVal) (h : k' ≠ k) :
    ∀ o : List (String × JVal),
      objGet (o.map (fun kv => if kv.1 = k then (kv.1, v) else kv)) k'
        = objGet o k' := by
  intro o
  induction o with
  | nil => rfl
  | cons kv o ih =>
    obtain ⟨k1, v1⟩ := kv
    by_cases hk1 : k1 = k
    · subst hk1
      simp [objGet_cons, Ne.symm h, ih]
    · by_cases hk2 : k1 = k'
      · simp [objGet_cons, hk1, hk2, h]
      · simp [objGet_cons, hk1, hk2, ih]

theorem objGet_append (o1 o2 : List (String × JVal)) (k : String) :
    objGet (o1 ++ o2) k
      = (match objGet o1 k with
        | some v => some v
        | none => objGet o2 k) := by
  induction o1 with
  | nil => simp
  | cons kv o ih =>
    obtain ⟨k1, v1⟩ := kv
    by_cases hk : k1 = k
    · simp [List.cons_append, objGet_cons, hk]
    · simp [List.cons_append, objGet_cons, hk, ih]

theorem objGet_objSet_same (o : List (String × JVal)) (k : String)
    (v : JVal) : objGet (objSet o k v) k = some v := by
  unfold objSet
  split
  · next hs =>
    rw [objGet_map_setkey_same]
    obtain ⟨w, hw⟩ := Option.isSome_iff_exists.mp hs
    rw [hw]
    rfl
  · next hs =>
    have hnone : objGet o k = none := Option.not_isSome_iff_eq_none.mp hs
    rw [objGet_append, hnone]
    simp [objGet_cons]

theorem objGet_objSet_other (o : List (String × JVal)) (k k' : String)
    (v : JVal) (h : k' ≠ k) :
    objGet (objSet o k v) k' = objGet o k' := by
  unfold objSet
  split
  · next _ => exact objGet_map_setkey_other k k' v h o
  · next _ =>
    rw [objGet_append]
    cases hc : objGet o k' with
    | some w => rfl
    | none =>
      simp [objGet_cons, Ne.symm h]

/-- Looking up through the spread-left part of `objMerge`. -/
theorem objGet_map_merge (b : List (String × JVal)) (k : String) :
    ∀ a : List (String × JVal),
      objGet (a.map (fun kv =>
          match objGet b kv.1 with
          | some v => (kv.1, v)
          | none => kv)) k
        = (objGet a k).map (fun w =>
            match objGet b k with
            | some v => v
            | none => w) := by
  intro a
  induction a with
  | nil => rfl
  | cons kv a ih =>
    obtain ⟨k1, v1⟩ := kv
    by_cases hk : k1 = k
    · subst hk
      cases hb : objGet b k1 <;> simp [objGet_cons, hb]
    · cases hb : objGet b k1 <;> simp [objGet_cons, hk, hb, ih]

theorem objGet_filter_merge (a : List (String × JVal)) (k : String)
    (hnone : objGet a k = none) :
    ∀ b : List (String × JVal),
      objGet (b.filter (fun kv => (objGet a kv.1).isNone)) k = objGet b k := by
  intro b
  induction b with
  | nil => rfl
  | cons kv b ih =>
    obtain ⟨k1, v1⟩ := kv
    by_cases hk : k1 = k
    · subst hk
      simp [List.filter_cons, hnone, objGet_cons]
    · by_cases hp : (objGet a k1).isNone = true
      · simp [List.filter_cons, hp, objGet_cons, hk, ih]
      · simp [List.filter_cons, hp, objGet_cons, hk, ih]

/-- Lookup through the JS spread `{ ...a, ...b }`: `b` (the caller) wins on
conflict, `a` fills in the rest. -/
theorem objGet_objMerge (a b : List (String × JVal)) (k : String) :
    objGet (objMerge a b) k
      = (match objGet a k, objGet b k with
        | some _, some v => some v
        | some w, none => some w
        | none, bv => bv) := by
  unfold objMerge
  rw [objGet_append, objGet_map_merge]
  cases ha : objGet a k with
  | none =>
    simp only [Option.map_none']
    exact objGet_filter_merge a k ha b
  | some w =>
    cases hb : objGet b k <;> simp [hb]

theorem objMerge_caller_wins (a b : List (String × JVal)) (k : String)
    (w : JVal) (h : objGet b k = some w) :
    objGet (objMerge a b) k = some w := by
  rw [objGet_objMerge, h]
  cases objGet a k <;> rfl

/-- C8 amended: the default encoder, on a plain record carrying a string
`topic`, passes the record through, filling in the timestamp exactly when
`ts` is absent *or null* (`out.ts == null`), leaving every other field
untouched except `src`, into which the configured non-empty source identity
is merged with caller-provided fields winning on conflict (the identity is
attached wholesale when the record has no `src`); on every other payload it
produces `{ts: now, topic: defaultTopic — or "raw" when that is empty —,
args: [payload]}` with the source identity attached only when non-empty. -/
theorem encodeDefault_spec (cfg : Config) (now : Int) :
    (∀ (fields : List (String × JVal)) (tstr : String),
      objGet fields "topic" = some (.str tstr) →
      ∃ out, encodeDefaultObj cfg now (.obj fields) = .obj out ∧
        objGet out "ts" = (match objGet fields "ts" with
          | none => some (.num now)
          | some .null => some (.num now)
          | some v => some v) ∧
        (∀ k2, k2 ≠ "ts" → k2 ≠ "src" → objGet out k2 = objGet fields k2) ∧
        (cfg.source = [] → objGet out "src" = objGet fields "src") ∧
        (cfg.source ≠ [] →
          (objGet fields "src" = none →
            objGet out "src" = some (.obj cfg.source)) ∧
          (∀ osrc, objGet fields "src" = some (.obj osrc) →
            objGet out "src" = some (.obj (objMerge cfg.source osrc)) ∧
            (∀ k2 w, objGet osrc k2 = some w →
              objGet (objMerge cfg.source osrc) k2 = some w)))) ∧
    (∀ payload : JVal,
      (match payload with
        | .obj fields => topicIsString fields = false
        | _ => True) →
      (cfg.source = [] →
        encodeDefaultObj cfg now payload
          = .obj [("ts", .num now),
              ("topic", .str (if cfg.defaultTopic = "" then "raw"
                else cfg.defaultTopic)),
              ("args", .arr [payload])]) ∧
      (cfg.source ≠ [] →
        encodeDefaultObj cfg now payload
          = .obj ([("ts", .num now),
              ("topic", .str (if cfg.defaultTopic = "" then "raw"
                else cfg.defaultTopic)),
              ("args", .arr [payload])]
            ++ [("src", .obj cfg.source)]))) := by
  constructor
  · intro fields tstr htopic
    have htop : topicIsString fields = true := by
      unfold topicIsString
      rw [htopic]
    have hstep : encodeDefaultObj cfg now (.obj fields)
        = .obj (match srcConfig cfg with
            | some s => mergeSrcField s
                (if tsIsNullish fields then objSet fields "ts" (.num now)
                  else fields)
            | none =>
                (if tsIsNullish fields then objSet fields "ts" (.num now)
                  else fields)) := by
      simp only [encodeDefaultObj]
      rw [if_pos htop]
    set o1 := (if tsIsNullish fields then objSet fields "ts" (.num now)
      else fields) with ho1
    have f1 : objGet o1 "ts" = (match objGet fields "ts" with
        | none => some (.num now)
        | some .null => some (.num now)
        | some v => some v) := by
      rw [ho1]
      by_cases hts : tsIsNullish fields = true
      · rw [if_pos hts, objGet_objSet_same]
        unfold tsIsNullish at hts
        cases hg : objGet fields "ts" with
        | none => rfl
        | some v =>
          cases v <;> rw [hg] at hts <;> first | rfl | simp at hts
      · rw [if_neg hts]
        unfold tsIsNullish at hts
        cases hg : objGet fields "ts" with
        | none =>
          rw [hg] at hts
          simp at hts
        | some v =>
          cases v <;> rw [hg] at hts <;> first | rfl | simp at hts
    have f2 : ∀ k2, k2 ≠ "ts" → objGet o1 k2 = objGet fields k2 := by
      intro k2 hk2
      rw [ho1]
      by_cases hts : tsIsNullish fields = true
      · rw [if_pos hts, objGet_objSet_other _ _ _ _ hk2]
      · rw [if_neg hts]
    cases hsrcc : srcConfig cfg with
    | none =>
      have hsempty : cfg.source = [] := by
        unfold srcConfig at hsrcc
        by_cases hl : cfg.source.length ≠ 0
        · rw [if_pos hl] at hsrcc
          exact absurd hsrcc (by simp)
        · simpa [List.length_eq_zero] using hl
      refine ⟨o1, ?_, f1, fun k2 h2 _ => f2 k2 h2, fun _ => f2 "src"
        (by decide), fun hne => absurd hsempty hne⟩
      rw [hstep, hsrcc]
    | some s =>
      have hsval : s = cfg.source ∧ cfg.source ≠ [] := by
        unfold srcConfig at hsrcc
        by_cases hl : cfg.source.length ≠ 0
        · rw [if_pos hl] at hsrcc
          refine ⟨by injection hsrcc with h; exact h.symm, ?_⟩
          intro hc
          rw [hc] at hl
          simp at hl
        · rw [if_neg hl] at hsrcc
          exact absurd hsrcc (by simp)
      obtain ⟨hs, hne⟩ := hsval
      subst hs
      have hsrcget : objGet o1 "src" = objGet fields "src" :=
        f2 "src" (by decide)
      refine ⟨mergeSrcField cfg.source o1, by rw [hstep, hsrcc], ?_, ?_,
        ?_, ?_⟩
      · -- ts is untouched by the src merge
        unfold mergeSrcField
        cases hg : objGet o1 "src" with
        | none =>
          rw [objGet_objSet_other _ _ _ _ (by decide)]
          exact f1
        | some v =>
          cases v <;>
            rw [objGet_objSet_other _ _ _ _ (by decide)] <;> exact f1
      · intro k2 h2 h3
        unfold mergeSrcField
        cases hg : objGet o1 "src" with
        | none =>
          rw [objGet_objSet_other _ _ _ _ h3]
          exact f2 k2 h2
        | some v =>
          cases v <;>
            rw [objGet_objSet_other _ _ _ _ h3] <;> exact f2 k2 h2
      · intro hc
        exact absurd hc hne
      · intro _
        constructor
        · intro hnosrc
          unfold mergeSrcField
          rw [hsrcget, hnosrc, objGet_objSet_same]
        · intro osrc hosrc
          unfold mergeSrcField
          rw [hsrcget, hosrc]
          exact ⟨objGet_objSet_same _ _ _,
            fun k2 w hw => objMerge_caller_wins cfg.source osrc k2 w hw⟩
  · intro payload hp
    have hwrap : encodeDefaultObj cfg now payload
        = wrapEnvelope cfg now payload (srcConfig cfg) := by
      cases payload with
      | obj fields =>
        have htf : ¬ topicIsString fields = true := by
          simp [hp]
        simp only [encodeDefaultObj]
        rw [if_neg htf]
      | null => rfl
      | bool b => rfl
      | num n => rfl
      | str s2 => rfl
      | arr xs => rfl
      | other => rfl
    constructor
    · intro hl
      rw [hwrap]
      unfold wrapEnvelope srcConfig
      rw [hl]
      simp
    · intro hl
      rw [hwrap]
      unfold wrapEnvelope srcConfig
      have hlen : cfg.source.length ≠ 0 := by
        simpa [List.length_eq_zero] using hl
      rw [if_pos hlen]

def cfgTopicEmpty : Config := { cfgBase with defaultTopic := "" }

def cfgSrc : Config := { cfgBase with source := [("app", JVal.str "x")] }

def f0 : List (String × JVal) :=
  [("topic", JVal.str "t"), ("src", JVal.obj [("app", JVal.str "me")])]

/-- C8 counterexample: the claim says the timestamp is filled in "only when
absent" and that the fallback envelope carries `topic: defaultTopic`.  But
(a) on the payload `{topic: "t", ts: null}` the `ts` field is *present* yet
the encoder overwrites it with the current time (`out.ts == null` also
matches null), and (b) with `defaultTopic = ""` the fallback envelope
carries `topic: "raw"`, not the configured empty `defaultTopic`
(`this.config.defaultTopic || "raw"`). -/
theorem encodeDefault_claim_counterexample :
    objGet [("topic", JVal.str "t"), ("ts", JVal.null)] "ts"
      = some JVal.null ∧
    encodeDefaultObj cfgBase 5 (.obj [("topic", .str "t"), ("ts", .null)])
      = .obj [("topic", .str "t"), ("ts", .num 5)] ∧
    cfgTopicEmpty.defaultTopic = "" ∧
    encodeDefaultObj cfgTopicEmpty 5 (.str "hi")
      = .obj [("ts", .num 5), ("topic", .str "raw"),
          ("args", .arr [.str "hi"])] :=
  ⟨rfl, rfl, rfl, rfl⟩

theorem encodeDefault_spec_witness :
    (∃ out, encodeDefaultObj cfgSrc 7 (.obj f0) = .obj out ∧
      objGet out "ts" = (match objGet f0 "ts" with
        | none => some (.num 7)
        | some .null => some (.num 7)
        | some v => some v) ∧
      (∀ k2, k2 ≠ "ts" → k2 ≠ "src" → objGet out k2 = objGet f0 k2) ∧
      (cfgSrc.source = [] → objGet out "src" = objGet f0 "src") ∧
      (cfgSrc.source ≠ [] →
        (objGet f0 "src" = none →
          objGet out "src" = some (.obj cfgSrc.source)) ∧
        (∀ osrc, objGet f0 "src" = some (.obj osrc) →
          objGet out "src" = some (.obj (objMerge cfgSrc.source osrc)) ∧
          (∀ k2 w, objGet osrc k2 = some w →
            objGet (objMerge cfgSrc.source osrc) k2 = some w)))) ∧
    ((cfgSrc.source = [] →
      encodeDefaultObj cfgSrc 7 (.num 1)
        = .obj [("ts", .num 7),
            ("topic", .str (if cfgSrc.defaultTopic = "" then "raw"
              else cfgSrc.defaultTopic)),
            ("args", .arr [.num 1])]) ∧
     (cfgSrc.source ≠ [] →
      encodeDefaultObj cfgSrc 7 (.num 1)
        = .obj ([("ts", .num 7),
            ("topic", .str (if cfgSrc.defaultTopic = "" then "raw"
              else cfgSrc.defaultTopic)),
            ("args", .arr [.num 1])]
          ++ [("src", .obj cfgSrc.source)]))) :=
  ⟨(encodeDefault_spec cfgSrc 7).1 f0 "t" rfl,
    (encodeDefault_spec cfgSrc 7).2 (.num 1) trivial⟩

end Ratatouille
